import Mathlib

/-!
# QHexEditData: piece chain, undo commands and stream adapter

A shallow embedding of `src/qhexedit/qhexeditdata.h`.

* `ModifiedItem` objects live on a heap and are addressed by pointers
  (`ModifiedItem*`); the piece chain `_modlist` and the slices kept by the
  commands are lists of such pointers, so an `updateLen` made through one
  pointer is seen through every list that holds it.
* `qint64` / `int` values are integers; no arithmetic in the modelled code is
  meant to wrap.
* The `dataChanged` signal is recorded as a list of emitted triples, oldest
  first.
-/

namespace QHexEditData

/-! ## QList operations used by the commands -/

namespace QList

/-- `QList::removeAt(i)`: removes the item at index `i`; an index outside
`[0, size())` leaves the list as it is. -/
def removeAt {α : Type} (l : List α) (i : Int) : List α :=
  if 0 ≤ i ∧ i < (l.length : Int) then l.take i.toNat ++ l.drop (i.toNat + 1) else l

/-- `QList::insert(i, value)`: inserts `value` at index `i`; for `i <= 0` the
value is prepended and for `i >= size()` it is appended. -/
def insert {α : Type} (l : List α) (i : Int) (v : α) : List α :=
  if i ≤ 0 then v :: l
  else if (l.length : Int) ≤ i then l ++ [v]
  else l.take i.toNat ++ v :: l.drop i.toNat

/-- `QList::erase(begin() + first, begin() + last)`: removes the items at the
positions `[first, last)`. Qt requires `0 <= first <= last <= size()`; the
value given here outside that range is not meaningful. -/
def erase {α : Type} (l : List α) (first last : Int) : List α :=
  l.take first.toNat ++ l.drop last.toNat

/-- The loop `for(i = 0; i < n; i++) list.removeAt(index)`. -/
def removeLoop {α : Type} (index : Int) : Nat → List α → List α
  | 0, l => l
  | n + 1, l => removeLoop index n (removeAt l index)

/-- The loop `for(i = i0; ...; i++) list.insert(index + i, ml[i])`, over the
items of `ml` that are still to be inserted. -/
def insertLoop {α : Type} (index : Int) : Int → List α → List α → List α
  | _, [], l => l
  | i, m :: ms, l => insertLoop index (i + 1) ms (insert l (index + i) m)

end QList

/-! ## Data model -/

/-- `QHexEditData::ActionType`. -/
inductive ActionType where
  | None
  | Insert
  | Remove
  | Replace
  deriving DecidableEq

/-- `QHexEditData::ModifiedItem`: a span `[_pos, _pos + _len)` of the device
(`_mod = false`) or of the modification buffer (`_mod = true`). -/
structure ModifiedItem where
  _pos : Int
  _len : Int
  _mod : Bool
  deriving DecidableEq

namespace ModifiedItem

def pos (m : ModifiedItem) : Int := m._pos

def length (m : ModifiedItem) : Int := m._len

def modified (m : ModifiedItem) : Bool := m._mod

/-- `void updateLen(qint64 amt) { this->_len += amt; }` -/
def updateLen (m : ModifiedItem) (amt : Int) : ModifiedItem :=
  { m with _len := m._len + amt }

end ModifiedItem

/-- A `ModifiedItem*`. -/
abbrev Ptr := Nat

/-- `typedef QList<ModifiedItem*> ModifyList`. -/
abbrev ModifyList := List Ptr

/-- The objects the `ModifiedItem*` pointers refer to. -/
abbrev Heap := Ptr → ModifiedItem

/-- One emission of `dataChanged(offset, size, reason)`. -/
structure Signal where
  offset : Int
  size : Int
  reason : ActionType
  deriving DecidableEq

end QHexEditData

/-- The fields of `QHexEditData` the commands read and write, the heap of
`ModifiedItem`s, the bytes of the device, and the `dataChanged` signals emitted
so far. -/
structure QHexEditData where
  heap : QHexEditData.Heap
  /-- The next address `new ModifiedItem` hands out. -/
  heapTop : Nat
  _dirtybuffer : Bool
  _modlist : QHexEditData.ModifyList
  _modbuffer : List UInt8
  _length : Int
  /-- The bytes of `_iodevice`. -/
  device : List UInt8
  dataChanged : List QHexEditData.Signal

namespace QHexEditData

/-- Modelled from the spec: `QHexEditData::length()` (declared in the header,
body missing) gives the cached total length, the counter `_length` the
commands update. -/
def length (s : QHexEditData) : Int := s._length

/-- The sum of `length()` over the items of a list, as the loops of the
`ModifyRangeCommand` constructor compute it. -/
def sumLength (heap : Heap) (ml : ModifyList) : Int :=
  ml.foldl (fun acc p => acc + (heap p).length) 0

/-- The sum of the lengths of all pieces of a list (full scan). -/
def pieceLengths (heap : Heap) (ml : ModifyList) : Int :=
  (ml.map (fun p => (heap p).length)).sum

/-- A chain holds the slice `ml` at the positions `[i, i + |ml|)`. -/
def holdsAt (chain : ModifyList) (i : Int) (ml : ModifyList) : Prop :=
  0 ≤ i ∧ i.toNat + ml.length ≤ chain.length ∧ (chain.drop i.toNat).take ml.length = ml

instance (chain : ModifyList) (i : Int) (ml : ModifyList) : Decidable (holdsAt chain i ml) := by
  unfold holdsAt; infer_instance

/-! ## Commands -/

/-- `AbstractCommand::notifyDataChanged`: sets `_dirtybuffer` and emits
`dataChanged(offset, size, reason)`. -/
def notifyDataChanged (offset size : Int) (reason : ActionType) (s : QHexEditData) :
    QHexEditData :=
  { s with _dirtybuffer := true, dataChanged := s.dataChanged ++ [⟨offset, size, reason⟩] }

/-- `ModifyRangeCommand` with the fields of `AbstractCommand` (`_notify`,
`_pos`); the owner is passed to every operation. -/
structure ModifyRangeCommand where
  _notify : Bool
  _pos : Int
  _index : Int
  _oldlength : Int
  _newlength : Int
  _oldml : ModifyList
  _newml : ModifyList
  deriving DecidableEq

namespace ModifyRangeCommand

/-- The constructor: `_notify` starts as `true`, and `_oldlength`,
`_newlength` are summed once, from the items as they are at that moment. -/
def new (heap : Heap) (index : Int) (pos : Int) (oldml newml : ModifyList) :
    ModifyRangeCommand :=
  { _notify := true, _pos := pos, _index := index,
    _oldlength := sumLength heap oldml, _newlength := sumLength heap newml,
    _oldml := oldml, _newml := newml }

def canNotify (c : ModifyRangeCommand) : Bool := c._notify

def setNotify (c : ModifyRangeCommand) (b : Bool) : ModifyRangeCommand := { c with _notify := b }

def pos (c : ModifyRangeCommand) : Int := c._pos

def index (c : ModifyRangeCommand) : Int := c._index

def oldLength (c : ModifyRangeCommand) : Int := c._oldlength

def newLength (c : ModifyRangeCommand) : Int := c._newlength

end ModifyRangeCommand

/-- `InsertCommand`. -/
structure InsertCommand extends ModifyRangeCommand where
  _optimized : Bool
  deriving DecidableEq

/-- `RemoveCommand`. -/
structure RemoveCommand extends ModifyRangeCommand where
  deriving DecidableEq

namespace InsertCommand

/-- The constructor of `InsertCommand`. -/
def new (heap : Heap) (index : Int) (pos : Int) (oldml newml : ModifyList) (opt : Bool) :
    InsertCommand :=
  { ModifyRangeCommand.new heap index pos oldml newml with _optimized := opt }

def optimized (c : InsertCommand) : Bool := c._optimized

def setNotify (c : InsertCommand) (b : Bool) : InsertCommand := { c with _notify := b }

/-- `InsertCommand::undo`. -/
def undo (c : InsertCommand) (s : QHexEditData) : QHexEditData :=
  let s1 := { s with _modlist := QList.removeLoop c.index c._newml.length s._modlist }
  let s2 := { s1 with _modlist := QList.insertLoop c.index 0 c._oldml s1._modlist }
  let s3 := { s2 with _length := s2._length - c.newLength }
  let s4 := { s3 with _length := s3._length + c.oldLength }
  if c.canNotify then notifyDataChanged c.pos c.oldLength ActionType.Insert s4 else s4

/-- `InsertCommand::redo`. -/
def redo (c : InsertCommand) (s : QHexEditData) : QHexEditData :=
  if c._optimized then s
  else
    let s1 := { s with _modlist := QList.removeLoop c.index c._oldml.length s._modlist }
    let s2 := { s1 with _modlist := QList.insertLoop c.index 0 c._newml s1._modlist }
    if c.canNotify then notifyDataChanged c.pos c.newLength ActionType.Insert s2 else s2

/-- `InsertCommand::mergeWith(command)`, for `command` an `InsertCommand`
(the only kind `QUndoStack` passes, since the ids agree). The result is the
returned flag and the owner after the call; `none` stands for an access outside
a list (`_newml[1]` or `last()` on a list that is too short). The command
itself is not changed: only the item `oldmi` points to is. -/
def mergeWith (c ic : InsertCommand) (s : QHexEditData) : Option (Bool × QHexEditData) :=
  if ic.optimized then
    match (if c._newml.length = 1 then c._newml[0]? else c._newml[1]?), ic._newml.getLast? with
    | some oldmi, some newmi =>
      let s1 := { s with
        heap := Function.update s.heap oldmi ((s.heap oldmi).updateLen (s.heap newmi).length) }
      some (true, notifyDataChanged ic.pos ic.newLength ActionType.Insert s1)
    | _, _ => none
  else some (false, s)

end InsertCommand

namespace RemoveCommand

/-- The constructor of `RemoveCommand`. -/
def new (heap : Heap) (index : Int) (pos : Int) (oldml newml : ModifyList) : RemoveCommand :=
  { ModifyRangeCommand.new heap index pos oldml newml with }

def setNotify (c : RemoveCommand) (b : Bool) : RemoveCommand := { c with _notify := b }

/-- `RemoveCommand::undo`. -/
def undo (c : RemoveCommand) (s : QHexEditData) : QHexEditData :=
  let s1 := { s with _modlist := QList.erase s._modlist c.index (c.index + c._newml.length) }
  let s2 := { s1 with _modlist := QList.insertLoop c.index 0 c._oldml s1._modlist }
  let s3 := { s2 with _length := s2._length - c.newLength }
  let s4 := { s3 with _length := s3._length + c.oldLength }
  if c.canNotify then notifyDataChanged c.pos c.oldLength ActionType.Remove s4 else s4

/-- `RemoveCommand::redo`. -/
def redo (c : RemoveCommand) (s : QHexEditData) : QHexEditData :=
  let s1 := { s with _modlist := QList.erase s._modlist c.index (c.index + c._oldml.length) }
  let s2 := { s1 with _modlist := QList.insertLoop c.index 0 c._newml s1._modlist }
  if c.canNotify then notifyDataChanged c.pos c.newLength ActionType.Remove s2 else s2

end RemoveCommand

/-- `ReplaceCommand` with the fields of `AbstractCommand`; a null sub-command
pointer is `none`. -/
structure ReplaceCommand where
  _notify : Bool
  _pos : Int
  _len : Int
  _data : List UInt8
  _remcmd : Option RemoveCommand
  _inscmd : Option InsertCommand
  deriving DecidableEq

/-- The private functions `internalRemove` and `internalInsert` of
`QHexEditData`, which the header declares and `ReplaceCommand::redo` calls;
each returns the command it built (or a null pointer) and the owner after the
call. -/
structure Internals where
  internalRemove : Int → Int → ActionType → QHexEditData → Option RemoveCommand × QHexEditData
  internalInsert :
    Int → List UInt8 → ActionType → QHexEditData → Option InsertCommand × QHexEditData

namespace ReplaceCommand

/-- The constructor of `ReplaceCommand`. -/
def new (pos len : Int) (ba : List UInt8) : ReplaceCommand :=
  { _notify := true, _pos := pos, _len := len, _data := ba, _remcmd := none, _inscmd := none }

def canNotify (c : ReplaceCommand) : Bool := c._notify

def setNotify (c : ReplaceCommand) (b : Bool) : ReplaceCommand := { c with _notify := b }

def pos (c : ReplaceCommand) : Int := c._pos

/-- `ReplaceCommand::undo`; `none` stands for the call through a null
sub-command pointer. -/
def undo (c : ReplaceCommand) (s : QHexEditData) : Option QHexEditData :=
  match c._inscmd, c._remcmd with
  | some ins, some rem =>
    let s1 := ins.undo s
    let s2 := rem.undo s1
    some (if c.canNotify then
      notifyDataChanged c.pos c._data.length ActionType.Replace s2 else s2)
  | _, _ => none

/-- The length `l` that the first execution of `ReplaceCommand::redo` passes to
`internalRemove`: `qMin(this->_len, this->owner()->length())`. -/
def removeLength (c : ReplaceCommand) (s : QHexEditData) : Int :=
  min c._len s.length

/-- The branch of `ReplaceCommand::redo` taken while a sub-command is missing:
both are built by the owner, silenced and run. -/
def firstRedo (f : Internals) (c : ReplaceCommand) (s : QHexEditData) :
    ReplaceCommand × QHexEditData :=
  let l := c.removeLength s
  let r := f.internalRemove c.pos l ActionType.Replace s
  let remcmd := r.1.map (fun rem => rem.setNotify false)
  let s1 := match remcmd with
    | some rem => rem.redo r.2
    | none => r.2
  let i := f.internalInsert c.pos c._data ActionType.Replace s1
  let inscmd := i.1.map (fun ins => ins.setNotify false)
  let s2 := match inscmd with
    | some ins => ins.redo i.2
    | none => i.2
  ({ c with _remcmd := remcmd, _inscmd := inscmd }, s2)

/-- `ReplaceCommand::redo`: the command after the call (its sub-command
pointers may have been set) and the owner after the call. -/
def redo (f : Internals) (c : ReplaceCommand) (s : QHexEditData) :
    ReplaceCommand × QHexEditData :=
  let r := match c._remcmd, c._inscmd with
    | some rem, some ins => (c, ins.redo (rem.redo s))
    | _, _ => firstRedo f c s
  (r.1, if c.canNotify then
    notifyDataChanged c.pos c._data.length ActionType.Replace r.2 else r.2)

/-- The sub-commands the command holds have their notify flag cleared. -/
def subSilent (c : ReplaceCommand) : Bool :=
  (match c._remcmd with
    | some rem => !rem.canNotify
    | none => true) &&
  (match c._inscmd with
    | some ins => !ins.canNotify
    | none => true)

end ReplaceCommand

/-! ## Stream adapter -/

/-- `QHexEditDataDevice`: the document it is attached to (`_hexeditdata`, null
until `setData`) and the stream position `QIODevice::pos()`. -/
structure QHexEditDataDevice where
  _hexeditdata : Option QHexEditData
  pos : Int

namespace QHexEditDataDevice

/-- `QHexEditDataDevice::readData(data, maxlen)`, over the function
`QHexEditData::read` the header declares. The result is the caller's buffer
after the call (`memcpy` overwrites its first `ba.length()` bytes) and the
returned value. -/
def readData (read : QHexEditData → Int → Int → List UInt8) (dev : QHexEditDataDevice)
    (data : List UInt8) (maxlen : Int) : List UInt8 × Int :=
  match dev._hexeditdata with
  | none => (data, 0)
  | some h =>
    let ba := read h dev.pos maxlen
    if !ba.isEmpty then (ba ++ data.drop ba.length, (ba.length : Int))
    else (data, -1)

end QHexEditDataDevice

/-! ## Parts of the document engine whose source is not in the header -/

/-- Modelled from the spec: the bytes one piece stands for (the body of
`QHexEditData::read` is missing), taken from the original source or from the
modification log according to the origin of the piece. -/
def pieceBytes (s : QHexEditData) (p : Ptr) : List UInt8 :=
  let m := s.heap p
  ((if m.modified then s._modbuffer else s.device).drop m.pos.toNat).take m.length.toNat

/-- Modelled from the spec: the logical content of the document (the body of
`QHexEditData::read` is missing), the concatenation of the bytes of the pieces
of the chain in order. -/
def content (s : QHexEditData) : List UInt8 :=
  s._modlist.foldr (fun p acc => pieceBytes s p ++ acc) []

/-- Modelled from the spec: `QHexEditData::read(pos, len)` (body missing):
the bytes of the logical content from `pos` on, at most `len` of them; a
zero-length or fully out-of-range read gives an empty result. -/
def read (s : QHexEditData) (pos len : Int) : List UInt8 :=
  if pos < 0 ∨ len ≤ 0 then [] else ((content s).drop pos.toNat).take len.toNat

/-- Modelled from the spec: `QHexEditData::fromMemory(ba)` (body missing): a
document whose chain is one `Source` piece covering the whole source, with an
empty modification log and `totalLength` the length of the source. -/
def fromMemory (ba : List UInt8) : QHexEditData :=
  { heap := fun _ => ⟨0, (ba.length : Int), false⟩, heapTop := 1, _dirtybuffer := false,
    _modlist := [0], _modbuffer := [], _length := (ba.length : Int), device := ba,
    dataChanged := [] }

/-- Modelled from the spec: `locate(pos)` (the body of
`QHexEditData::modifiedItem` is missing): walks the pieces accumulating
lengths until `pos` falls inside one, and gives the index of that piece and
the offset of `pos` inside it; at the end of the chain the index is the number
of pieces. -/
def locate (heap : Heap) : ModifyList → Int → Nat → Nat × Int
  | [], pos, k => (k, pos)
  | p :: ps, pos, k =>
    if pos < (heap p).length then (k, pos) else locate heap ps (pos - (heap p).length) (k + 1)

/-- Modelled from the spec: the pieces, from the one a removal starts in, that
the range of the removal overlaps (the body of `QHexEditData::internalRemove`
is missing): pieces are taken until `need` bytes are covered. -/
def cover (heap : Heap) : ModifyList → Int → ModifyList
  | [], _ => []
  | p :: ps, need => if need ≤ 0 then [] else p :: cover heap ps (need - (heap p).length)

/-- Modelled from the spec: `insert(pos, bytes)` up to the splice (the body
of `QHexEditData::internalInsert` is missing, and the splice is what
`InsertCommand::redo` does): the bytes are appended to the modification log,
the new sub-sequence `[piece-before, new Log piece, piece-after]` is built for
a position inside a piece and `[new Log piece]` for a position on a piece
boundary, `totalLength` grows by the number of bytes, and the `Insert` command
records the replaced and the new slice. Coalescing is not modelled: the
command is not optimized. A position outside the document gives no command. -/
def specInsert (pos : Int) (ba : List UInt8) (_act : ActionType) (s : QHexEditData) :
    Option InsertCommand × QHexEditData :=
  if pos < 0 ∨ s.length < pos then (none, s)
  else
    let newp := s.heapTop
    let heap1 := Function.update s.heap newp ⟨(s._modbuffer.length : Int), (ba.length : Int), true⟩
    let loc := locate s.heap s._modlist pos 0
    match (if loc.2 = 0 then none else s._modlist[loc.1]?) with
    | none =>
      let s1 := { s with heap := heap1, heapTop := newp + 1,
                         _modbuffer := s._modbuffer ++ ba,
                         _length := s._length + (ba.length : Int) }
      (some (InsertCommand.new s1.heap (loc.1 : Int) pos [] [newp] false), s1)
    | some p =>
      let m := s.heap p
      let heap2 := Function.update heap1 (newp + 1) ⟨m.pos, loc.2, m.modified⟩
      let heap3 := Function.update heap2 (newp + 2)
        ⟨m.pos + loc.2, m.length - loc.2, m.modified⟩
      let s1 := { s with heap := heap3, heapTop := newp + 3,
                         _modbuffer := s._modbuffer ++ ba,
                         _length := s._length + (ba.length : Int) }
      (some (InsertCommand.new s1.heap (loc.1 : Int) pos [p] [newp + 1, newp, newp + 2] false),
        s1)

/-- Modelled from the spec: `remove(pos, len)` up to the splice (the body of
`QHexEditData::internalRemove` is missing, and the splice is what
`RemoveCommand::redo` does): the length is clamped to the end of the
document, the pieces overlapping `[pos, pos+len)` are the old slice, what is
left of the first and of the last of them outside the range is the new slice,
`totalLength` shrinks by the clamped length, and the `Remove` command records
both slices. A removal that has nothing to remove (a position at or past the
end of the document, or a length that is not positive) is a no-op and gives no
command. -/
def specRemove (pos len : Int) (_act : ActionType) (s : QHexEditData) :
    Option RemoveCommand × QHexEditData :=
  if pos < 0 ∨ s.length ≤ pos ∨ len ≤ 0 then (none, s)
  else
    let l := min len (s.length - pos)
    let loc := locate s.heap s._modlist pos 0
    let oldml := cover s.heap (s._modlist.drop loc.1) (loc.2 + l)
    let total := pieceLengths s.heap oldml
    let first := s.heap (oldml.headD 0)
    let last := s.heap (oldml.getLastD 0)
    let rest := total - (loc.2 + l)
    let heap1 := if 0 < loc.2 then
      Function.update s.heap s.heapTop ⟨first.pos, loc.2, first.modified⟩ else s.heap
    let headml : ModifyList := if 0 < loc.2 then [s.heapTop] else []
    let heap2 := if 0 < rest then
      Function.update heap1 (s.heapTop + 1) ⟨last.pos + last.length - rest, rest, last.modified⟩
      else heap1
    let tailml : ModifyList := if 0 < rest then [s.heapTop + 1] else []
    let s1 := { s with heap := heap2, heapTop := s.heapTop + 2, _length := s._length - l }
    (some (RemoveCommand.new s1.heap (loc.1 : Int) pos oldml (headml ++ tailml)), s1)

/-- Modelled from the spec: the owner functions `ReplaceCommand::redo` calls,
as the spec describes `remove` and `insert`. -/
def specInternals : Internals :=
  { internalRemove := specRemove, internalInsert := specInsert }

/-- Modelled from the spec: the first execution of `replace(pos, len, bytes)`,
the `redo` of the new `ReplaceCommand` that pushing it on the undo stack runs,
over the owner functions as the spec describes them: the command after it,
with the sub-commands it holds, and the document after it. -/
def specReplace (pos len : Int) (ba : List UInt8) (s : QHexEditData) :
    ReplaceCommand × QHexEditData :=
  (ReplaceCommand.new pos len ba).redo specInternals s

/-- The bytes of an ASCII string. -/
def bytes (str : String) : List UInt8 := str.toList.map (fun ch => UInt8.ofNat ch.toNat)

/-! ## Concrete documents and commands -/

/-- The 10-byte source `0123456789` loaded as a document. -/
def doc10 : QHexEditData := fromMemory (bytes "0123456789")

/-- The command `insert(3, "XYZ")` builds on `doc10`, and the document before
the command is pushed. -/
def insertXYZ : Option InsertCommand × QHexEditData :=
  specInsert 3 (bytes "XYZ") ActionType.Insert doc10

/-- The `InsertCommand` of `insert(3, "XYZ")`. -/
def insertXYZcmd : InsertCommand := insertXYZ.1.getD (InsertCommand.new doc10.heap 0 0 [] [] false)

/-- The document after `insert(3, "XYZ")` has been pushed (first `redo`). -/
def doc13 : QHexEditData := insertXYZcmd.redo insertXYZ.2

/-- The command `remove(2, 3)` builds on `doc13`, and the document before the
command is pushed. -/
def remove23 : Option RemoveCommand × QHexEditData :=
  specRemove 2 3 ActionType.Remove doc13

/-- The `RemoveCommand` of `remove(2, 3)`. -/
def remove23cmd : RemoveCommand := remove23.1.getD (RemoveCommand.new doc13.heap 0 0 [] [])

/-- The document after `remove(2, 3)` has been pushed (first `redo`). -/
def doc10b : QHexEditData := remove23cmd.redo remove23.2

/-- The `ReplaceCommand` of `replace(0, 2, "AB")`, as constructed. -/
def replaceAB : ReplaceCommand := ReplaceCommand.new 0 2 (bytes "AB")

/-- The first execution of `replace(0, 2, "AB")` on `doc10`: the command with
its sub-commands, and the document after it. -/
def replacedAB : ReplaceCommand × QHexEditData := replaceAB.redo specInternals doc10

/-- The `RemoveCommand` held by the executed `replace(0, 2, "AB")`. -/
def replaceABrem : RemoveCommand := replacedAB.1._remcmd.getD (RemoveCommand.new doc10.heap 0 0 [] [])

/-- The `InsertCommand` held by the executed `replace(0, 2, "AB")`. -/
def replaceABins : InsertCommand :=
  replacedAB.1._inscmd.getD (InsertCommand.new doc10.heap 0 0 [] [] false)

/-- The command `insert(3, "X")` builds on `doc10`, and the document before
the command is pushed. -/
def insertX : Option InsertCommand × QHexEditData :=
  specInsert 3 (bytes "X") ActionType.Insert doc10

/-- The `InsertCommand` of `insert(3, "X")`. -/
def insertXcmd : InsertCommand := insertX.1.getD (InsertCommand.new doc10.heap 0 0 [] [] false)

/-- The document after `insert(3, "X")` has been pushed (first `redo`). -/
def doc11 : QHexEditData := insertXcmd.redo insertX.2

/-- The document when the coalesced `insert(4, "Y")` that follows is merged:
the byte is in the modification log, the item `4` stands for it, and
`length()` counts it. -/
def doc11Y : QHexEditData :=
  { doc11 with heap := Function.update doc11.heap 4 ⟨1, 1, true⟩, heapTop := 5,
               _modbuffer := doc11._modbuffer ++ bytes "Y", _length := doc11._length + 1 }

/-- The optimized `InsertCommand` of the coalesced `insert(4, "Y")`. -/
def insertYcmd : InsertCommand := InsertCommand.new doc11Y.heap 1 4 [] [4] true

/-- The merge of the coalesced `insert(4, "Y")` into the command of
`insert(3, "X")`. -/
def mergedXY : Option (Bool × QHexEditData) := insertXcmd.mergeWith insertYcmd doc11Y

/-- The stream adapter attached to `doc10`, positioned at the end of the
document. -/
def deviceAtEnd : QHexEditDataDevice := { _hexeditdata := some doc10, pos := 10 }

/-- The stream adapter attached to `doc10`, positioned at byte 8. -/
def deviceAt8 : QHexEditDataDevice := { _hexeditdata := some doc10, pos := 8 }

/-- A document whose chain is `[new, after]`, the shape without a piece
before: the item `1` is the new Log piece of one inserted byte, the item `3`
the piece after it (the 10 bytes of the source); the item `2` stands for the
byte of a following coalesced insert, which `length()` counts. -/
def docNewAfter : QHexEditData :=
  { doc10 with
    heap := Function.update (Function.update (Function.update doc10.heap 1 ⟨0, 1, true⟩)
      2 ⟨1, 1, true⟩) 3 ⟨0, 10, false⟩,
    heapTop := 4, _modlist := [1, 3], _modbuffer := bytes "XY", _length := 12 }

/-- An `InsertCommand` whose new slice is `[new, after]`: the one piece `0` of
the source was replaced by the new piece `1` and the piece `3` after it. -/
def insertNewAfter : InsertCommand := InsertCommand.new docNewAfter.heap 0 0 [0] [1, 3] false

/-- The optimized `InsertCommand` of the coalesced insert on `docNewAfter`. -/
def insertCoalesced : InsertCommand := InsertCommand.new docNewAfter.heap 1 1 [] [2] true

/-- The command `replace(5, 8, "ABCDEFGH")`, as constructed. -/
def replace58 : ReplaceCommand := ReplaceCommand.new 5 8 (bytes "ABCDEFGH")

/-! ## Merging, as `QUndoStack` calls it -/

/-- The value of an `ActionType` enumerator. -/
def ActionType.value : ActionType → Int
  | ActionType.None => 0
  | ActionType.Insert => 1
  | ActionType.Remove => 2
  | ActionType.Replace => 3

/-- A command on the undo stack: one of the three `QUndoCommand` subclasses
the header defines. -/
inductive Command where
  | insert (c : InsertCommand)
  | remove (c : RemoveCommand)
  | replace (c : ReplaceCommand)

/-- `InsertCommand::id()`. -/
def InsertCommand.id (_c : InsertCommand) : Int := ActionType.Insert.value

/-- `RemoveCommand::id()`. -/
def RemoveCommand.id (_c : RemoveCommand) : Int := ActionType.Remove.value

/-- `ReplaceCommand::id()`. -/
def ReplaceCommand.id (_c : ReplaceCommand) : Int := ActionType.Replace.value

/-- `RemoveCommand` declares no `mergeWith`: a call reaches
`QUndoCommand::mergeWith`, whose default implementation returns false and
does nothing. -/
def RemoveCommand.mergeWith (_c : RemoveCommand) (_command : Command) (s : QHexEditData) :
    Bool × QHexEditData :=
  (false, s)

/-- `ReplaceCommand` declares no `mergeWith`: a call reaches
`QUndoCommand::mergeWith`, whose default implementation returns false and
does nothing. -/
def ReplaceCommand.mergeWith (_c : ReplaceCommand) (_command : Command) (s : QHexEditData) :
    Bool × QHexEditData :=
  (false, s)

namespace Command

/-- The virtual call `id()`. -/
def id : Command → Int
  | insert c => c.id
  | remove c => c.id
  | replace c => c.id

/-- The position `pos()` of the edit. -/
def pos : Command → Int
  | insert c => c.pos
  | remove c => c.pos
  | replace c => c.pos

/-- The virtual call `top->mergeWith(command)`: the returned flag and the
owner after the call. `InsertCommand::mergeWith` casts its argument to
`InsertCommand` and uses the result unchecked, so for another kind of command
the call is a use of a null pointer (`none`); `QUndoStack` passes a command
only when the ids agree. -/
def mergeWith (top command : Command) (s : QHexEditData) : Option (Bool × QHexEditData) :=
  match top, command with
  | insert c, insert ic => c.mergeWith ic s
  | insert _, _ => none
  | remove c, cmd => some (c.mergeWith cmd s)
  | replace c, cmd => some (c.mergeWith cmd s)

end Command

/-! ## The slice a command touches -/

/-- The chain `after` comes from the chain `before` by replacing the `removed`
pieces at the positions `[i, i + removed)` by the slice `put`: the pieces at
the positions `[0, i)` are the same, `put` stands at `[i, i + |put|)`, the
pieces that were at the positions from `i + removed` on follow in the same
order, and the number of pieces changes by `|put| - removed`. -/
def replacesSlice (before after : ModifyList) (i removed : Nat) (put : ModifyList) : Prop :=
  after.take i = before.take i ∧
  (after.drop i).take put.length = put ∧
  after.drop (i + put.length) = before.drop (i + removed) ∧
  (after.length : Int) - (before.length : Int) = (put.length : Int) - (removed : Int)

instance (before after : ModifyList) (i removed : Nat) (put : ModifyList) :
    Decidable (replacesSlice before after i removed put) := by
  unfold replacesSlice; infer_instance

/-! ## More concrete documents and commands -/

/-- The command `replace(10, 2, "AB")`, a write at the end of `doc10`, as
constructed. -/
def replaceAtEnd : ReplaceCommand := ReplaceCommand.new 10 2 (bytes "AB")

/-- The first execution of `replace(10, 2, "AB")` on `doc10`: the command
after it, and the document after it. -/
def replacedAtEnd : ReplaceCommand × QHexEditData := replaceAtEnd.redo specInternals doc10

/-- The command a second `remove(2, 1)` builds on `doc10b`, the document
`remove(2, 3)` left, and the document before the command is pushed. -/
def removeAgain : Option RemoveCommand × QHexEditData :=
  specRemove 2 1 ActionType.Remove doc10b

/-- The `RemoveCommand` of the second remove at position 2. -/
def removeAgainCmd : RemoveCommand :=
  removeAgain.1.getD (RemoveCommand.new doc10b.heap 0 0 [] [])

/-- The first execution of a second replace at the same spot,
`replace(0, 2, "CD")`, on the document `replace(0, 2, "AB")` left: the command
with its sub-commands, and the document after it. -/
def replacedCD : ReplaceCommand × QHexEditData :=
  (ReplaceCommand.new 0 2 (bytes "CD")).redo specInternals replacedAB.2

/-! ## Lemmas on the list operations -/

theorem removeAt_at {α : Type} (pre : List α) (x : α) (post : List α) :
    QList.removeAt (pre ++ x :: post) (pre.length : Int) = pre ++ post := by
  unfold QList.removeAt
  have h : 0 ≤ (pre.length : Int) ∧ (pre.length : Int) < ((pre ++ x :: post).length : Int) := by
    constructor
    · exact Int.ofNat_nonneg _
    · simp
  rw [if_pos h]
  simp

theorem removeLoop_at {α : Type} (pre post : List α) :
    ∀ xs : List α, QList.removeLoop (pre.length : Int) xs.length (pre ++ xs ++ post) = pre ++ post
  | [] => by simp [QList.removeLoop]
  | x :: xs => by
    have h := removeLoop_at pre post xs
    simp only [List.length_cons, QList.removeLoop]
    have e : pre ++ x :: xs ++ post = pre ++ x :: (xs ++ post) := by simp
    rw [e, removeAt_at]
    simpa using h

theorem insert_at {α : Type} (pre post : List α) (v : α) :
    QList.insert (pre ++ post) (pre.length : Int) v = pre ++ v :: post := by
  unfold QList.insert
  by_cases h0 : (pre.length : Int) ≤ 0
  · have : pre = [] := by
      cases pre with
      | nil => rfl
      | cons a t => simp at h0; omega
    subst this
    simp
  · rw [if_neg h0]
    by_cases h1 : ((pre ++ post).length : Int) ≤ (pre.length : Int)
    · have : post = [] := by
        cases post with
        | nil => rfl
        | cons a t => simp at h1; omega
      subst this
      simp
    · rw [if_neg h1]
      simp

theorem insertLoop_at {α : Type} (pre post : List α) :
    ∀ (ys done : List α),
      QList.insertLoop (pre.length : Int) (done.length : Int) ys (pre ++ done ++ post)
        = pre ++ done ++ ys ++ post
  | [], done => by simp [QList.insertLoop]
  | y :: ys, done => by
    have h := insertLoop_at pre post ys (done ++ [y])
    simp only [QList.insertLoop]
    have e1 : ((pre.length : Int) + (done.length : Int)) = ((pre ++ done).length : Int) := by simp
    have e2 : pre ++ done ++ post = (pre ++ done) ++ post := rfl
    rw [e1, e2, insert_at]
    have e3 : ((done.length : Int) + 1) = ((done ++ [y]).length : Int) := by simp
    rw [e3]
    simpa using h

theorem erase_at {α : Type} (pre xs post : List α) :
    QList.erase (pre ++ xs ++ post) (pre.length : Int) ((pre.length : Int) + (xs.length : Int))
      = pre ++ post := by
  unfold QList.erase
  have e : ((pre.length : Int) + (xs.length : Int)).toNat = (pre ++ xs).length := by
    simp; omega
  rw [e]
  simp

theorem holdsAt_iff (chain : ModifyList) (i : Int) (ml : ModifyList) :
    holdsAt chain i ml ↔ ∃ pre post, chain = pre ++ ml ++ post ∧ i = (pre.length : Int) := by
  constructor
  · rintro ⟨h0, h1, h2⟩
    refine ⟨chain.take i.toNat, (chain.drop i.toNat).drop ml.length, ?_, ?_⟩
    · conv_lhs => rw [← List.take_append_drop i.toNat chain]
      rw [List.append_assoc]
      congr 1
      conv_lhs => rw [← List.take_append_drop ml.length (chain.drop i.toNat)]
      rw [h2]
    · rw [List.length_take, Nat.min_eq_left (by omega)]
      omega
  · rintro ⟨pre, post, rfl, rfl⟩
    refine ⟨Int.ofNat_nonneg _, ?_, ?_⟩
    · simp
    · simp

/-! ## Effect of the commands on the chain -/

theorem insert_undo_modlist (c : InsertCommand) (s : QHexEditData) (pre post : ModifyList)
    (h : s._modlist = pre ++ c._newml ++ post) (hi : c.index = (pre.length : Int)) :
    (c.undo s)._modlist = pre ++ c._oldml ++ post := by
  have e : (c.undo s)._modlist
      = QList.insertLoop c.index 0 c._oldml
          (QList.removeLoop c.index c._newml.length s._modlist) := by
    unfold InsertCommand.undo notifyDataChanged
    split <;> rfl
  rw [e, h, hi, removeLoop_at]
  have := insertLoop_at pre post c._oldml []
  simpa using this

theorem insert_redo_modlist (c : InsertCommand) (s : QHexEditData) (pre post : ModifyList)
    (hopt : c.optimized = false)
    (h : s._modlist = pre ++ c._oldml ++ post) (hi : c.index = (pre.length : Int)) :
    (c.redo s)._modlist = pre ++ c._newml ++ post := by
  have e : (c.redo s)._modlist
      = QList.insertLoop c.index 0 c._newml
          (QList.removeLoop c.index c._oldml.length s._modlist) := by
    unfold InsertCommand.optimized at hopt
    unfold InsertCommand.redo notifyDataChanged
    rw [hopt]
    simp only [Bool.false_eq_true, if_false]
    split <;> rfl
  rw [e, h, hi, removeLoop_at]
  have := insertLoop_at pre post c._newml []
  simpa using this

theorem remove_undo_modlist (c : RemoveCommand) (s : QHexEditData) (pre post : ModifyList)
    (h : s._modlist = pre ++ c._newml ++ post) (hi : c.index = (pre.length : Int)) :
    (c.undo s)._modlist = pre ++ c._oldml ++ post := by
  have e : (c.undo s)._modlist
      = QList.insertLoop c.index 0 c._oldml
          (QList.erase s._modlist c.index (c.index + (c._newml.length : Int))) := by
    unfold RemoveCommand.undo notifyDataChanged
    split <;> rfl
  rw [e, h, hi, erase_at]
  have := insertLoop_at pre post c._oldml []
  simpa using this

theorem remove_redo_modlist (c : RemoveCommand) (s : QHexEditData) (pre post : ModifyList)
    (h : s._modlist = pre ++ c._oldml ++ post) (hi : c.index = (pre.length : Int)) :
    (c.redo s)._modlist = pre ++ c._newml ++ post := by
  have e : (c.redo s)._modlist
      = QList.insertLoop c.index 0 c._newml
          (QList.erase s._modlist c.index (c.index + (c._oldml.length : Int))) := by
    unfold RemoveCommand.redo notifyDataChanged
    split <;> rfl
  rw [e, h, hi, erase_at]
  have := insertLoop_at pre post c._newml []
  simpa using this

/-! ## Undo and redo are mutually inverse on the chain -/

/-- C1: undo and redo of a piece-chain command are mutually inverse on the
piece chain. For a non-optimized `InsertCommand` and for a `RemoveCommand`:
on a chain that holds the new slice at the command's index, undo followed by
redo gives back the same chain; on a chain that holds the old slice at the
command's index, redo followed by undo gives back the same chain. -/
theorem undo_redo_mutually_inverse (ic : InsertCommand) (rc : RemoveCommand) (s : QHexEditData)
    (hopt : ic.optimized = false) :
    (holdsAt s._modlist ic.index ic._newml → (ic.redo (ic.undo s))._modlist = s._modlist) ∧
    (holdsAt s._modlist ic.index ic._oldml → (ic.undo (ic.redo s))._modlist = s._modlist) ∧
    (holdsAt s._modlist rc.index rc._newml → (rc.redo (rc.undo s))._modlist = s._modlist) ∧
    (holdsAt s._modlist rc.index rc._oldml → (rc.undo (rc.redo s))._modlist = s._modlist) := by
  refine ⟨?_, ?_, ?_, ?_⟩
  · intro h
    obtain ⟨pre, post, hc, hi⟩ := (holdsAt_iff _ _ _).1 h
    rw [insert_redo_modlist ic _ pre post hopt
      (insert_undo_modlist ic s pre post hc hi) hi, hc]
  · intro h
    obtain ⟨pre, post, hc, hi⟩ := (holdsAt_iff _ _ _).1 h
    rw [insert_undo_modlist ic _ pre post
      (insert_redo_modlist ic s pre post hopt hc hi) hi, hc]
  · intro h
    obtain ⟨pre, post, hc, hi⟩ := (holdsAt_iff _ _ _).1 h
    rw [remove_redo_modlist rc _ pre post
      (remove_undo_modlist rc s pre post hc hi) hi, hc]
  · intro h
    obtain ⟨pre, post, hc, hi⟩ := (holdsAt_iff _ _ _).1 h
    rw [remove_undo_modlist rc _ pre post
      (remove_redo_modlist rc s pre post hc hi) hi, hc]

/-- Witness of C1 on the document `0123456789`, for `insert(3, "XYZ")` and a
following `remove(2, 3)`: the four round trips, each on a chain that holds the
slice it needs. -/
theorem undo_redo_mutually_inverse_witness :
    (holdsAt doc13._modlist insertXYZcmd.index insertXYZcmd._newml ∧
      (insertXYZcmd.redo (insertXYZcmd.undo doc13))._modlist = doc13._modlist) ∧
    (holdsAt insertXYZ.2._modlist insertXYZcmd.index insertXYZcmd._oldml ∧
      (insertXYZcmd.undo (insertXYZcmd.redo insertXYZ.2))._modlist = insertXYZ.2._modlist) ∧
    (holdsAt doc10b._modlist remove23cmd.index remove23cmd._newml ∧
      (remove23cmd.redo (remove23cmd.undo doc10b))._modlist = doc10b._modlist) ∧
    (holdsAt doc13._modlist remove23cmd.index remove23cmd._oldml ∧
      (remove23cmd.undo (remove23cmd.redo doc13))._modlist = doc13._modlist) :=
  ⟨⟨by decide,
    (undo_redo_mutually_inverse insertXYZcmd remove23cmd doc13 (by decide)).1 (by decide)⟩,
   ⟨by decide,
    (undo_redo_mutually_inverse insertXYZcmd remove23cmd insertXYZ.2 (by decide)).2.1
      (by decide)⟩,
   ⟨by decide,
    (undo_redo_mutually_inverse insertXYZcmd remove23cmd doc10b (by decide)).2.2.1 (by decide)⟩,
   ⟨by decide,
    (undo_redo_mutually_inverse insertXYZcmd remove23cmd doc13 (by decide)).2.2.2 (by decide)⟩⟩

/-! ## Replace -/

theorem replace_undo_of_both (c : ReplaceCommand) (rem : RemoveCommand)
    (ins : InsertCommand) (s : QHexEditData)
    (hrem : c._remcmd = some rem) (hins : c._inscmd = some ins) :
    c.undo s = some (if c.canNotify then
      notifyDataChanged c.pos c._data.length ActionType.Replace (rem.undo (ins.undo s))
      else rem.undo (ins.undo s)) := by
  unfold ReplaceCommand.undo
  rw [hrem, hins]

theorem replace_redo_of_both (f : Internals) (c : ReplaceCommand) (rem : RemoveCommand)
    (ins : InsertCommand) (s : QHexEditData)
    (hrem : c._remcmd = some rem) (hins : c._inscmd = some ins) :
    c.redo f s = (c, if c.canNotify then
      notifyDataChanged c.pos c._data.length ActionType.Replace (ins.redo (rem.redo s))
      else ins.redo (rem.redo s)) := by
  unfold ReplaceCommand.redo
  rw [hrem, hins]

theorem ite_notify_modlist (b : Bool) (o n : Int) (a : ActionType) (s : QHexEditData) :
    (if b then notifyDataChanged o n a s else s)._modlist = s._modlist := by
  cases b <;> rfl

/-- Undo and redo of a replace on the chain, in terms of the recorded slices:
for a `ReplaceCommand` that holds both sub-commands, with an `Insert`
sub-command that is not optimized, when the removal was redone on a chain
holding its old slice and then the insertion on a chain holding its old slice,
which gave the chain of `s2`: undo is defined, undoes the insertion first and
then the removal, and restores the chain of `s0`; a following redo leaves the
command as it is, redoes the removal first and then the insertion, and
restores the chain of `s2`. -/
theorem replace_undo_redo_chain (f : Internals) (c : ReplaceCommand) (rem : RemoveCommand)
    (ins : InsertCommand) (s0 s2 : QHexEditData)
    (hrem : c._remcmd = some rem) (hins : c._inscmd = some ins)
    (hopt : ins.optimized = false)
    (h1 : holdsAt s0._modlist rem.index rem._oldml)
    (h2 : holdsAt (rem.redo s0)._modlist ins.index ins._oldml)
    (hs2 : s2._modlist = (ins.redo (rem.redo s0))._modlist) :
    ∃ s3, c.undo s2 = some s3 ∧
      s3._modlist = (rem.undo (ins.undo s2))._modlist ∧
      s3._modlist = s0._modlist ∧
      (c.redo f s3).1 = c ∧
      (c.redo f s3).2._modlist = (ins.redo (rem.redo s3))._modlist ∧
      (c.redo f s3).2._modlist = s2._modlist := by
  obtain ⟨preR, postR, hc0, hiR⟩ := (holdsAt_iff _ _ _).1 h1
  have hc1 := remove_redo_modlist rem s0 preR postR hc0 hiR
  obtain ⟨preI, postI, hc1I, hiI⟩ := (holdsAt_iff _ _ _).1 h2
  have hc2 : s2._modlist = preI ++ ins._newml ++ postI := by
    rw [hs2]; exact insert_redo_modlist ins _ preI postI hopt hc1I hiI
  have hu1 : (ins.undo s2)._modlist = preR ++ rem._newml ++ postR := by
    rw [insert_undo_modlist ins s2 preI postI hc2 hiI, ← hc1I, hc1]
  have hu2 : (rem.undo (ins.undo s2))._modlist = s0._modlist := by
    rw [remove_undo_modlist rem _ preR postR hu1 hiR, hc0]
  refine ⟨_, replace_undo_of_both c rem ins s2 hrem hins, ?_, ?_, ?_, ?_, ?_⟩
  · rw [ite_notify_modlist]
  · rw [ite_notify_modlist, hu2]
  · rw [replace_redo_of_both f c rem ins _ hrem hins]
  · rw [replace_redo_of_both f c rem ins _ hrem hins]
    simp only [ite_notify_modlist]
  · rw [replace_redo_of_both f c rem ins _ hrem hins]
    simp only [ite_notify_modlist]
    have e0 : (if c.canNotify then
        notifyDataChanged c.pos c._data.length ActionType.Replace (rem.undo (ins.undo s2))
        else rem.undo (ins.undo s2))._modlist = preR ++ rem._oldml ++ postR := by
      rw [ite_notify_modlist, hu2, hc0]
    have e1 := remove_redo_modlist rem _ preR postR e0 hiR
    rw [insert_redo_modlist ins _ preI postI hopt (by rw [e1, ← hc1, hc1I]) hiI, hc2]

/-! ## The length counter -/

theorem sumLength_eq_pieceLengths (heap : Heap) (ml : ModifyList) :
    sumLength heap ml = pieceLengths heap ml := by
  have key : ∀ (l : ModifyList) (a : Int),
      l.foldl (fun acc p => acc + (heap p).length) a
        = a + (l.map (fun p => (heap p).length)).sum := by
    intro l
    induction l with
    | nil => intro a; simp
    | cons x xs ih => intro a; simp [List.foldl_cons, ih, add_assoc]
  unfold sumLength pieceLengths
  rw [key]
  simp

theorem pieceLengths_append (heap : Heap) (a b : ModifyList) :
    pieceLengths heap (a ++ b) = pieceLengths heap a + pieceLengths heap b := by
  simp [pieceLengths]

theorem insert_undo_length (c : InsertCommand) (s : QHexEditData) :
    (c.undo s).length = s.length - c.newLength + c.oldLength := by
  unfold InsertCommand.undo notifyDataChanged QHexEditData.length
  split <;> rfl

theorem insert_undo_heap (c : InsertCommand) (s : QHexEditData) :
    (c.undo s).heap = s.heap := by
  unfold InsertCommand.undo notifyDataChanged
  split <;> rfl

theorem remove_undo_length (c : RemoveCommand) (s : QHexEditData) :
    (c.undo s).length = s.length - c.newLength + c.oldLength := by
  unfold RemoveCommand.undo notifyDataChanged QHexEditData.length
  split <;> rfl

theorem remove_undo_heap (c : RemoveCommand) (s : QHexEditData) :
    (c.undo s).heap = s.heap := by
  unfold RemoveCommand.undo notifyDataChanged
  split <;> rfl

/-- The arithmetic behind the length update of `undo`: replacing the slice `n`
by the slice `o` in a chain changes the sum of the piece lengths by the
difference of the sums of the two slices. -/
theorem pieceLengths_splice (heap : Heap) (pre o n post : ModifyList) (len : Int)
    (h : len = pieceLengths heap (pre ++ n ++ post)) :
    len - sumLength heap n + sumLength heap o = pieceLengths heap (pre ++ o ++ post) := by
  rw [h, sumLength_eq_pieceLengths, sumLength_eq_pieceLengths]
  simp only [pieceLengths_append]
  ring

/-- C3: undo keeps the length counter consistent with the piece chain. For a
freshly constructed `InsertCommand` or `RemoveCommand` (its cached lengths are
the sums over the items as they are in the document), on a document whose
chain holds the new slice at the command's index and whose `length()` is the
sum of the lengths of all pieces of the chain, `length()` after undo is again
the sum of the lengths of all pieces of the resulting chain. -/
theorem undo_keeps_length_consistent (s : QHexEditData) (index pos : Int)
    (oldml newml : ModifyList) (opt : Bool)
    (hchain : holdsAt s._modlist index newml)
    (hlen : s.length = pieceLengths s.heap s._modlist) :
    ((InsertCommand.new s.heap index pos oldml newml opt).undo s).length
        = pieceLengths ((InsertCommand.new s.heap index pos oldml newml opt).undo s).heap
            ((InsertCommand.new s.heap index pos oldml newml opt).undo s)._modlist ∧
    ((RemoveCommand.new s.heap index pos oldml newml).undo s).length
        = pieceLengths ((RemoveCommand.new s.heap index pos oldml newml).undo s).heap
            ((RemoveCommand.new s.heap index pos oldml newml).undo s)._modlist := by
  obtain ⟨pre, post, hc, hi⟩ := (holdsAt_iff _ _ _).1 hchain
  constructor
  · rw [insert_undo_length, insert_undo_heap,
      insert_undo_modlist (InsertCommand.new s.heap index pos oldml newml opt) s pre post hc hi]
    exact pieceLengths_splice s.heap pre oldml newml post s.length (by rw [hlen, hc])
  · rw [remove_undo_length, remove_undo_heap,
      remove_undo_modlist (RemoveCommand.new s.heap index pos oldml newml) s pre post hc hi]
    exact pieceLengths_splice s.heap pre oldml newml post s.length (by rw [hlen, hc])

/-- Witness of C3: `insert(3, "XYZ")` on `0123456789` gives a document of
length 13 over three pieces; undoing the command built from those pieces gives
length 10 over one piece. -/
theorem undo_keeps_length_consistent_witness :
    holdsAt doc13._modlist 0 [2, 1, 3] ∧
    doc13.length = pieceLengths doc13.heap doc13._modlist ∧
    ((InsertCommand.new doc13.heap 0 3 [0] [2, 1, 3] false).undo doc13).length
        = pieceLengths ((InsertCommand.new doc13.heap 0 3 [0] [2, 1, 3] false).undo doc13).heap
            ((InsertCommand.new doc13.heap 0 3 [0] [2, 1, 3] false).undo doc13)._modlist ∧
    ((InsertCommand.new doc13.heap 0 3 [0] [2, 1, 3] false).undo doc13).length = 10 :=
  ⟨by decide, by decide,
   (undo_keeps_length_consistent doc13 0 3 [0] [2, 1, 3] false (by decide) (by decide)).1,
   by decide⟩

theorem insert_redo_length (c : InsertCommand) (s : QHexEditData) :
    (c.redo s).length = s.length := by
  unfold InsertCommand.redo notifyDataChanged QHexEditData.length
  split
  · rfl
  · split <;> rfl

theorem remove_redo_length (c : RemoveCommand) (s : QHexEditData) :
    (c.redo s).length = s.length := by
  unfold RemoveCommand.redo notifyDataChanged QHexEditData.length
  split <;> rfl

/-- C4: redo does not bring `length()` back. For every `InsertCommand` and
`RemoveCommand`, undo followed by redo leaves `length()` at the value undo
gave it, `length() - newLength() + oldLength()`; after `insert(3, "XYZ")` on
`0123456789`, where `length()` is 13, undo and redo leave `length()` at 10
while the re-installed chain has 13 bytes. -/
theorem undo_redo_length :
    (∀ (c : InsertCommand) (s : QHexEditData),
      (c.redo (c.undo s)).length = s.length - c.newLength + c.oldLength) ∧
    (∀ (c : RemoveCommand) (s : QHexEditData),
      (c.redo (c.undo s)).length = s.length - c.newLength + c.oldLength) ∧
    (doc13.length = 13 ∧
      pieceLengths doc13.heap doc13._modlist = 13 ∧
      (insertXYZcmd.redo (insertXYZcmd.undo doc13)).length = 10 ∧
      (insertXYZcmd.redo (insertXYZcmd.undo doc13))._modlist = doc13._modlist ∧
      pieceLengths (insertXYZcmd.redo (insertXYZcmd.undo doc13)).heap
        (insertXYZcmd.redo (insertXYZcmd.undo doc13))._modlist = 13 ∧
      content (insertXYZcmd.redo (insertXYZcmd.undo doc13)) = bytes "012XYZ3456789") := by
  refine ⟨?_, ?_, ?_⟩
  · intro c s
    rw [insert_redo_length, insert_undo_length]
  · intro c s
    rw [remove_redo_length, remove_undo_length]
  · decide

/-- C5: undo of a coalesced insert takes one byte off `length()`, not N. With
N = 2: `insert(3, "X")` on `0123456789` and a coalesced `insert(4, "Y")`
merged into its command give `012XY3456789`, with `length()` 12 equal to the
sum of the piece lengths; the single undo restores the one-piece chain of 10
bytes but leaves `length()` at 11. -/
theorem coalesced_undo_length :
    mergedXY.map (fun r => r.1) = some true ∧
    mergedXY.map (fun r => content r.2) = some (bytes "012XY3456789") ∧
    mergedXY.map (fun r => r.2.length) = some 12 ∧
    mergedXY.map (fun r => pieceLengths r.2.heap r.2._modlist) = some 12 ∧
    mergedXY.map (fun r => (insertXcmd.undo r.2)._modlist) = some insertX.2._modlist ∧
    mergedXY.map (fun r => content (insertXcmd.undo r.2)) = some (bytes "0123456789") ∧
    mergedXY.map (fun r => pieceLengths (insertXcmd.undo r.2).heap (insertXcmd.undo r.2)._modlist)
      = some 10 ∧
    mergedXY.map (fun r => (insertXcmd.undo r.2).length) = some 11 := by
  decide

/-! ## Notifications -/

theorem insert_undo_dataChanged (c : InsertCommand) (s : QHexEditData) :
    (c.undo s).dataChanged
      = s.dataChanged ++ (if c.canNotify then [⟨c.pos, c.oldLength, ActionType.Insert⟩] else []) := by
  unfold InsertCommand.undo notifyDataChanged
  split <;> simp

theorem insert_redo_dataChanged (c : InsertCommand) (s : QHexEditData) :
    (c.redo s).dataChanged
      = s.dataChanged ++ (if c.optimized then []
          else if c.canNotify then [⟨c.pos, c.newLength, ActionType.Insert⟩] else []) := by
  unfold InsertCommand.redo notifyDataChanged InsertCommand.optimized
  split
  · simp
  · split <;> simp

theorem remove_undo_dataChanged (c : RemoveCommand) (s : QHexEditData) :
    (c.undo s).dataChanged
      = s.dataChanged ++ (if c.canNotify then [⟨c.pos, c.oldLength, ActionType.Remove⟩] else []) := by
  unfold RemoveCommand.undo notifyDataChanged
  split <;> simp

theorem remove_redo_dataChanged (c : RemoveCommand) (s : QHexEditData) :
    (c.redo s).dataChanged
      = s.dataChanged ++ (if c.canNotify then [⟨c.pos, c.newLength, ActionType.Remove⟩] else []) := by
  unfold RemoveCommand.redo notifyDataChanged
  split <;> simp

/-- C6 (amended): every call of undo on an `InsertCommand` or `RemoveCommand`,
of redo on a `RemoveCommand`, and of redo on an `InsertCommand` that is not
optimized, emits exactly one `dataChanged` notification when the notify flag
is set and none when it is not, whatever the slices; redo on an optimized
`InsertCommand` emits none, whatever the flag. -/
theorem undo_redo_notifications (ic : InsertCommand) (rc : RemoveCommand) (s : QHexEditData) :
    (ic.undo s).dataChanged
      = s.dataChanged ++
          (if ic.canNotify then [⟨ic.pos, ic.oldLength, ActionType.Insert⟩] else []) ∧
    (ic.redo s).dataChanged
      = s.dataChanged ++
          (if ic.optimized then []
            else if ic.canNotify then [⟨ic.pos, ic.newLength, ActionType.Insert⟩] else []) ∧
    (rc.undo s).dataChanged
      = s.dataChanged ++
          (if rc.canNotify then [⟨rc.pos, rc.oldLength, ActionType.Remove⟩] else []) ∧
    (rc.redo s).dataChanged
      = s.dataChanged ++
          (if rc.canNotify then [⟨rc.pos, rc.newLength, ActionType.Remove⟩] else []) :=
  ⟨insert_undo_dataChanged ic s, insert_redo_dataChanged ic s,
   remove_undo_dataChanged rc s, remove_redo_dataChanged rc s⟩

/-- C6, counterexample: the optimized `InsertCommand` of a coalesced insert
has its notify flag set, and its redo emits no notification. -/
theorem optimized_redo_is_silent :
    insertYcmd.canNotify = true ∧ insertYcmd.optimized = true ∧
    (insertYcmd.redo doc11Y).dataChanged = doc11Y.dataChanged ∧
    (insertYcmd.redo doc11Y).dataChanged.length ≠ doc11Y.dataChanged.length + 1 := by
  decide

theorem remove_redo_silenced (o : Option RemoveCommand) (t : QHexEditData) :
    (match o.map (fun (rem : RemoveCommand) => rem.setNotify false) with
      | some rem => rem.redo t
      | none => t).dataChanged = t.dataChanged := by
  cases o with
  | none => rfl
  | some rem =>
    show ((rem.setNotify false).redo t).dataChanged = t.dataChanged
    rw [remove_redo_dataChanged]
    simp [RemoveCommand.setNotify, ModifyRangeCommand.canNotify]

theorem insert_redo_silenced (o : Option InsertCommand) (t : QHexEditData) :
    (match o.map (fun (ins : InsertCommand) => ins.setNotify false) with
      | some ins => ins.redo t
      | none => t).dataChanged = t.dataChanged := by
  cases o with
  | none => rfl
  | some ins =>
    show ((ins.setNotify false).redo t).dataChanged = t.dataChanged
    rw [insert_redo_dataChanged]
    simp [InsertCommand.setNotify, ModifyRangeCommand.canNotify]

theorem firstRedo_dataChanged (f : Internals)
    (hR : ∀ pos l a s, (f.internalRemove pos l a s).2.dataChanged = s.dataChanged)
    (hI : ∀ pos ba a s, (f.internalInsert pos ba a s).2.dataChanged = s.dataChanged)
    (c : ReplaceCommand) (s : QHexEditData) :
    (ReplaceCommand.firstRedo f c s).2.dataChanged = s.dataChanged := by
  unfold ReplaceCommand.firstRedo
  simp only
  rw [insert_redo_silenced, hI, remove_redo_silenced, hR]

theorem subSilent_of_silenced (c : ReplaceCommand) (r : Option RemoveCommand)
    (i : Option InsertCommand) :
    ReplaceCommand.subSilent
      { c with _remcmd := r.map (fun (rem : RemoveCommand) => rem.setNotify false),
               _inscmd := i.map (fun (ins : InsertCommand) => ins.setNotify false) } = true := by
  cases r <;> cases i <;> rfl

theorem firstRedo_subSilent (f : Internals) (c : ReplaceCommand)
    (s : QHexEditData) :
    (ReplaceCommand.firstRedo f c s).1.subSilent = true := by
  unfold ReplaceCommand.firstRedo
  exact subSilent_of_silenced c _ _

theorem replace_redo_fst (f : Internals) (c : ReplaceCommand) (s : QHexEditData) :
    (c.redo f s).1 = c ∨ (c.redo f s).1 = (ReplaceCommand.firstRedo f c s).1 := by
  unfold ReplaceCommand.redo
  cases c._remcmd <;> cases c._inscmd <;> simp

theorem replace_redo_dataChanged (f : Internals)
    (hR : ∀ pos l a s, (f.internalRemove pos l a s).2.dataChanged = s.dataChanged)
    (hI : ∀ pos ba a s, (f.internalInsert pos ba a s).2.dataChanged = s.dataChanged)
    (c : ReplaceCommand) (s : QHexEditData) (hn : c.canNotify = true)
    (hs : c.subSilent = true) :
    (c.redo f s).2.dataChanged
      = s.dataChanged ++ [⟨c.pos, c._data.length, ActionType.Replace⟩] := by
  unfold ReplaceCommand.redo
  simp only [hn, if_true, notifyDataChanged]
  congr 1
  unfold ReplaceCommand.subSilent at hs
  cases hr : c._remcmd with
  | none => simp only; exact firstRedo_dataChanged f hR hI c s
  | some rem =>
    cases hi : c._inscmd with
    | none => simp only; exact firstRedo_dataChanged f hR hI c s
    | some ins =>
      simp only
      rw [hr, hi] at hs
      simp only [Bool.and_eq_true, Bool.not_eq_true'] at hs
      rw [insert_redo_dataChanged, remove_redo_dataChanged, hs.1, hs.2]
      simp

theorem replace_undo_dataChanged (c : ReplaceCommand) (rem : RemoveCommand)
    (ins : InsertCommand) (s : QHexEditData)
    (hr : c._remcmd = some rem) (hi : c._inscmd = some ins)
    (hn : c.canNotify = true) (hs : c.subSilent = true) :
    ∃ s', c.undo s = some s' ∧
      s'.dataChanged = s.dataChanged ++ [⟨c.pos, c._data.length, ActionType.Replace⟩] := by
  refine ⟨_, replace_undo_of_both c rem ins s hr hi, ?_⟩
  unfold ReplaceCommand.subSilent at hs
  rw [hr, hi] at hs
  simp only [Bool.and_eq_true, Bool.not_eq_true'] at hs
  simp only [hn, if_true, notifyDataChanged]
  rw [remove_undo_dataChanged, insert_undo_dataChanged, hs.1, hs.2]
  simp

theorem specRemove_dataChanged (pos l : Int) (a : ActionType) (s : QHexEditData) :
    (specRemove pos l a s).2.dataChanged = s.dataChanged := by
  unfold specRemove
  split <;> rfl

theorem specInsert_dataChanged (pos : Int) (ba : List UInt8) (a : ActionType)
    (s : QHexEditData) :
    (specInsert pos ba a s).2.dataChanged = s.dataChanged := by
  unfold specInsert
  split
  · rfl
  · simp only
    split <;> rfl

/-- The notifications of a replace, over an owner whose `internalRemove` and
`internalInsert` emit nothing themselves: for every `ReplaceCommand` with
notification enabled whose sub-commands, as far as it holds them, have been
silenced (so for a new command, which holds none), redo emits exactly the one
notification `(pos, number of replacement bytes, Replace)` and leaves a
command that is again of this kind, with the same position and data; undo of
a command holding both sub-commands is defined and emits exactly that one
notification; and the sub-commands run by either emit nothing. -/
theorem replace_is_one_change (f : Internals)
    (hR : ∀ pos l a s, (f.internalRemove pos l a s).2.dataChanged = s.dataChanged)
    (hI : ∀ pos ba a s, (f.internalInsert pos ba a s).2.dataChanged = s.dataChanged)
    (c : ReplaceCommand) (s : QHexEditData)
    (hn : c.canNotify = true) (hs : c.subSilent = true) :
    (c.redo f s).2.dataChanged
      = s.dataChanged ++ [⟨c.pos, c._data.length, ActionType.Replace⟩] ∧
    ((c.redo f s).1.canNotify = true ∧ (c.redo f s).1.subSilent = true ∧
      (c.redo f s).1.pos = c.pos ∧ (c.redo f s).1._data = c._data) ∧
    (∀ rem ins, c._remcmd = some rem → c._inscmd = some ins →
      (∃ s', c.undo s = some s' ∧
        s'.dataChanged = s.dataChanged ++ [⟨c.pos, c._data.length, ActionType.Replace⟩]) ∧
      (ins.redo (rem.redo s)).dataChanged = s.dataChanged ∧
      (rem.undo (ins.undo s)).dataChanged = s.dataChanged) ∧
    (∀ pos len ba, (ReplaceCommand.new pos len ba).canNotify = true ∧
      (ReplaceCommand.new pos len ba).subSilent = true) := by
  refine ⟨replace_redo_dataChanged f hR hI c s hn hs, ?_, ?_, ?_⟩
  · rcases replace_redo_fst f c s with h | h
    · rw [h]; exact ⟨hn, hs, rfl, rfl⟩
    · rw [h]
      exact ⟨hn, firstRedo_subSilent f c s, rfl, rfl⟩
  · intro rem ins hr hi
    refine ⟨replace_undo_dataChanged c rem ins s hr hi hn hs, ?_, ?_⟩
    · unfold ReplaceCommand.subSilent at hs
      rw [hr, hi] at hs
      simp only [Bool.and_eq_true, Bool.not_eq_true'] at hs
      rw [insert_redo_dataChanged, remove_redo_dataChanged, hs.1, hs.2]
      simp
    · unfold ReplaceCommand.subSilent at hs
      rw [hr, hi] at hs
      simp only [Bool.and_eq_true, Bool.not_eq_true'] at hs
      rw [remove_undo_dataChanged, insert_undo_dataChanged, hs.1, hs.2]
      simp
  · intro pos len ba
    exact ⟨rfl, rfl⟩

/-! ## Stream adapter -/

/-- C8 (amended): the stream adapter's read delegates to `read`. For every
document the adapter is attached to, every stream position and every
`maxlen`: when `read(pos, maxlen)` is not empty, `readData` returns the number
of its bytes, the caller's buffer starts with exactly those bytes and is
unchanged behind them; when `read(pos, maxlen)` is empty, `readData` returns
-1 and leaves the buffer as it was. -/
theorem readData_delegates (read : QHexEditData → Int → Int → List UInt8)
    (h : QHexEditData) (p : Int) (data : List UInt8) (maxlen : Int) :
    (read h p maxlen ≠ [] →
      (QHexEditDataDevice.readData read ⟨some h, p⟩ data maxlen).2
        = ((read h p maxlen).length : Int) ∧
      (QHexEditDataDevice.readData read ⟨some h, p⟩ data maxlen).1.take (read h p maxlen).length
        = read h p maxlen ∧
      (QHexEditDataDevice.readData read ⟨some h, p⟩ data maxlen).1.drop (read h p maxlen).length
        = data.drop (read h p maxlen).length) ∧
    (read h p maxlen = [] →
      QHexEditDataDevice.readData read ⟨some h, p⟩ data maxlen = (data, -1)) := by
  constructor
  · intro hne
    have he : (read h p maxlen).isEmpty = false := by
      cases hr : read h p maxlen with
      | nil => exact absurd hr hne
      | cons a t => rfl
    simp [QHexEditDataDevice.readData, he]
  · intro he
    simp [QHexEditDataDevice.readData, he]

/-- Witness of C8 (amended) on `0123456789`: at position 8 a read of at most 4
bytes puts `89` at the start of the buffer and returns 2; at position 10 it
returns -1 and leaves the buffer as it was. -/
theorem readData_delegates_witness :
    (read doc10 8 4 ≠ [] ∧
      QHexEditDataDevice.readData read deviceAt8 (bytes "....") 4 = (bytes "89..", 2) ∧
      (QHexEditDataDevice.readData read deviceAt8 (bytes "....") 4).2
        = ((read doc10 8 4).length : Int)) ∧
    (read doc10 10 4 = [] ∧
      QHexEditDataDevice.readData read deviceAtEnd (bytes "....") 4 = (bytes "....", -1)) :=
  ⟨⟨by decide, by decide,
    ((readData_delegates read doc10 8 (bytes "....") 4).1 (by decide)).1⟩,
   ⟨by decide, (readData_delegates read doc10 10 (bytes "....") 4).2 (by decide)⟩⟩

/-- C8, counterexample: on `0123456789`, a read at the end of the document
(position 10) and a read of length 0 (at position 8) are empty, and `readData`
returns -1 for both, not 0. -/
theorem readData_empty_is_minus_one :
    read doc10 10 4 = [] ∧
    (QHexEditDataDevice.readData read deviceAtEnd (bytes "....") 4).2 = -1 ∧
    read doc10 8 0 = [] ∧
    (QHexEditDataDevice.readData read deviceAt8 (bytes "....") 0).2 = -1 ∧
    (QHexEditDataDevice.readData read deviceAtEnd (bytes "....") 4).2 ≠ 0 := by
  decide

/-! ## Merging and the length removed by a replace -/

/-- C9 (amended): merging extends the inserted piece. For every
`InsertCommand` whose new slice is `[new]`, `[before, new]` or
`[before, new, after]` and every `InsertCommand` `ic` merged into it whose
inserted piece is `q`: when `ic` is optimized, `mergeWith` returns true,
increases the length of the new Log piece by the length of `q` and leaves
every other piece, so the pieces before and after, and the chain as they are;
when `ic` is not optimized, `mergeWith` returns false and changes nothing. -/
theorem mergeWith_extends_new_piece (c ic : InsertCommand) (s : QHexEditData)
    (pb pn pa q : Ptr)
    (hshape : c._newml = [pn] ∨ c._newml = [pb, pn] ∨ c._newml = [pb, pn, pa])
    (hq : ic._newml.getLast? = some q) :
    (ic.optimized = true →
      ∃ s', c.mergeWith ic s = some (true, s') ∧
        (s'.heap pn).length = (s.heap pn).length + (s.heap q).length ∧
        (∀ p, p ≠ pn → s'.heap p = s.heap p) ∧
        s'._modlist = s._modlist) ∧
    (ic.optimized = false → c.mergeWith ic s = some (false, s)) := by
  constructor
  · intro hopt
    have hold : (if c._newml.length = 1 then c._newml[0]? else c._newml[1]?) = some pn := by
      rcases hshape with h | h | h <;> rw [h] <;> rfl
    refine ⟨notifyDataChanged ic.pos ic.newLength ActionType.Insert
      { s with
        heap := (Function.update s.heap pn ((s.heap pn).updateLen (s.heap q).length)) },
      ?_, ?_, ?_, rfl⟩
    · unfold InsertCommand.mergeWith
      rw [if_pos hopt, hold, hq]
    · simp [notifyDataChanged, ModifiedItem.updateLen, ModifiedItem.length]
    · intro p hp
      simp [notifyDataChanged, Function.update_noteq hp]
  · intro hopt
    unfold InsertCommand.mergeWith
    rw [hopt]
    rfl

/-- Witness of C9 (amended): `insert(3, "X")` on `0123456789` has the new
slice `[2, 1, 3]` with the new Log piece `1` of length 1; merging the
optimized command of the coalesced `insert(4, "Y")`, whose piece `4` has
length 1, returns true and gives the piece `1` the length 2, with the pieces
`2` and `3` as they were. -/
theorem mergeWith_extends_new_piece_witness :
    (insertXcmd._newml = [2, 1, 3] ∧ insertYcmd._newml.getLast? = some 4 ∧
      insertYcmd.optimized = true ∧
      (doc11Y.heap 1).length = 1 ∧ (doc11Y.heap 4).length = 1) ∧
    (∃ s', insertXcmd.mergeWith insertYcmd doc11Y = some (true, s') ∧
      (s'.heap 1).length = (doc11Y.heap 1).length + (doc11Y.heap 4).length ∧
      (∀ p, p ≠ 1 → s'.heap p = doc11Y.heap p) ∧
      s'._modlist = doc11Y._modlist) ∧
    (insertXYZcmd.optimized = false ∧ insertXYZcmd._newml.getLast? = some 3 ∧
      insertXcmd.mergeWith insertXYZcmd doc11Y = some (false, doc11Y)) :=
  ⟨by decide,
   (mergeWith_extends_new_piece insertXcmd insertYcmd doc11Y 2 1 3 4
     (Or.inr (Or.inr (by decide))) (by decide)).1 (by decide),
   by decide, by decide,
   (mergeWith_extends_new_piece insertXcmd insertXYZcmd doc11Y 2 1 3 3
     (Or.inr (Or.inr (by decide))) (by decide)).2 (by decide)⟩

/-- C9, counterexample: the new slice `[new, after]`, with no piece before
the new one. The chain is `[1, 3]` with the new Log piece `1` of length 1 and the piece `3`
after it of length 10, and the merged optimized command inserted one byte:
`mergeWith` returns true, the new Log piece keeps length 1 and the piece after
it grows to 11. -/
theorem mergeWith_new_after :
    insertNewAfter._newml = [1, 3] ∧
    insertCoalesced.optimized = true ∧
    (docNewAfter.heap 1).length = 1 ∧
    (docNewAfter.heap 3).length = 10 ∧
    (insertCoalesced._newml.getLast?).map (fun p => (docNewAfter.heap p).length) = some 1 ∧
    (insertNewAfter.mergeWith insertCoalesced docNewAfter).map (fun r => r.1) = some true ∧
    (insertNewAfter.mergeWith insertCoalesced docNewAfter).map
      (fun r => (r.2.heap 1).length) = some 1 ∧
    (insertNewAfter.mergeWith insertCoalesced docNewAfter).map
      (fun r => (r.2.heap 3).length) = some 11 := by
  decide

/-- C10: the length a replace asks to remove is clamped to the length of the
document, not to what is left behind the position. The first execution of
`redo` passes `removeLength` to `internalRemove`; for `replace(5, 8, ...)` on
the 10-byte document it is 8, and 5 + 8 exceeds 10. -/
theorem replace_remove_length :
    (∀ (f : Internals) (pos len : Int) (ba : List UInt8) (s : QHexEditData),
      ((ReplaceCommand.new pos len ba).redo f s).1._remcmd
        = (f.internalRemove pos ((ReplaceCommand.new pos len ba).removeLength s)
            ActionType.Replace s).1.map (fun rem => rem.setNotify false)) ∧
    (∀ (c : ReplaceCommand) (s : QHexEditData), c.removeLength s = min c._len s.length) ∧
    (doc10.length = 10 ∧ replace58.pos = 5 ∧ replace58._len = 8 ∧
      replace58.removeLength doc10 = 8 ∧
      ¬ (replace58.pos + replace58.removeLength doc10 ≤ doc10.length)) := by
  refine ⟨?_, ?_, ?_⟩
  · intro f pos len ba s
    rfl
  · intro c s
    rfl
  · decide

/-! ## Missing sub-commands of a replace -/

/-- C11: undo of an executed replace reaches a missing sub-command. After the
first `redo` of a new `ReplaceCommand` the sub-commands are what
`internalRemove` and `internalInsert` returned, null pointers included, and
undo is defined exactly when the command holds both. For the write at the end
of the document `replace(10, 2, "AB")` on `0123456789`: the removal has
nothing to remove and gives no command, the insertion appends `AB`, and undo
of the executed command makes a call through the null `_remcmd`. -/
theorem replace_undo_missing_subcommand :
    (∀ (f : Internals) (pos len : Int) (ba : List UInt8) (s : QHexEditData),
      ((ReplaceCommand.new pos len ba).redo f s).1
        = (ReplaceCommand.firstRedo f (ReplaceCommand.new pos len ba) s).1 ∧
      ((ReplaceCommand.new pos len ba).redo f s).1._remcmd.isSome
        = (f.internalRemove pos (min len s.length) ActionType.Replace s).1.isSome) ∧
    (∀ (c : ReplaceCommand) (s : QHexEditData),
      (c.undo s).isSome = (c._inscmd.isSome && c._remcmd.isSome)) ∧
    (replaceAtEnd.removeLength doc10 = 2 ∧
      (specRemove 10 2 ActionType.Replace doc10).1 = none ∧
      replacedAtEnd.1._remcmd = none ∧
      replacedAtEnd.1._inscmd.isSome = true ∧
      content replacedAtEnd.2 = bytes "0123456789AB" ∧
      (replacedAtEnd.1.undo replacedAtEnd.2).isSome = false) := by
  refine ⟨?_, ?_, ?_⟩
  · intro f pos len ba s
    refine ⟨rfl, ?_⟩
    show (Option.map (fun (rem : RemoveCommand) => rem.setNotify false)
      (f.internalRemove pos (min len s.length) ActionType.Replace s).1).isSome = _
    cases (f.internalRemove pos (min len s.length) ActionType.Replace s).1 <;> rfl
  · intro c s
    unfold ReplaceCommand.undo
    cases c._inscmd <;> cases c._remcmd <;> rfl
  · decide

/-! ## Merging of removes and replaces -/

/-- C12 (amended): coalescing covers inserts only. For a `RemoveCommand`
(respectively `ReplaceCommand`) on top of the undo stack and every following
command, of the same kind and at the same position or not, the top command's
merge operation is the default of `QUndoCommand`: it refuses the new command
and leaves the document as it is, so that every remove and every replace of a
same-spot run stays an undo entry of its own. -/
theorem remove_replace_refuse_merge (rtop : RemoveCommand) (ptop : ReplaceCommand)
    (command : Command) (s : QHexEditData) :
    Command.mergeWith (Command.remove rtop) command s = some (false, s) ∧
    Command.mergeWith (Command.replace ptop) command s = some (false, s) :=
  ⟨rfl, rfl⟩

/-- C12, counterexample: on `0123456789` after `insert(3, "XYZ")`, the remove
at position 2 followed by a second remove at position 2, and
`replace(0, 2, "AB")` followed by `replace(0, 2, "CD")`: the ids and the
positions agree, and the merge operation of the top command returns false. -/
theorem same_spot_merge_refused :
    (Command.id (Command.remove remove23cmd) = Command.id (Command.remove removeAgainCmd) ∧
      Command.pos (Command.remove remove23cmd) = Command.pos (Command.remove removeAgainCmd) ∧
      (Command.mergeWith (Command.remove remove23cmd) (Command.remove removeAgainCmd)
        removeAgain.2).map (fun r => r.1) = some false) ∧
    (Command.id (Command.replace replacedAB.1) = Command.id (Command.replace replacedCD.1) ∧
      Command.pos (Command.replace replacedAB.1) = Command.pos (Command.replace replacedCD.1) ∧
      (Command.mergeWith (Command.replace replacedAB.1) (Command.replace replacedCD.1)
        replacedCD.2).map (fun r => r.1) = some false) := by
  decide

/-! ## Undo and redo touch only the recorded slice -/

theorem chain_split (chain : ModifyList) (i n : Nat) (h : i + n ≤ chain.length) :
    chain = chain.take i ++ (chain.drop i).take n ++ chain.drop (i + n) ∧
    (chain.take i).length = i ∧ ((chain.drop i).take n).length = n := by
  refine ⟨?_, ?_, ?_⟩
  · rw [List.append_assoc, ← List.drop_drop, List.take_append_drop, List.take_append_drop]
  · rw [List.length_take]; omega
  · rw [List.length_take, List.length_drop]; omega

theorem replacesSlice_splice (pre xs post put : ModifyList) :
    replacesSlice (pre ++ xs ++ post) (pre ++ put ++ post) pre.length xs.length put := by
  refine ⟨?_, ?_, ?_, ?_⟩
  · simp [List.append_assoc]
  · simp [List.append_assoc]
  · have e1 : pre ++ put ++ post = (pre ++ put) ++ post := rfl
    have e2 : pre ++ xs ++ post = (pre ++ xs) ++ post := rfl
    have l1 : pre.length + put.length = (pre ++ put).length := by simp
    have l2 : pre.length + xs.length = (pre ++ xs).length := by simp
    rw [e1, e2, l1, l2, List.drop_left, List.drop_left]
  · simp only [List.length_append]
    push_cast
    ring

theorem insert_redo_loops (c : InsertCommand) (s : QHexEditData) (hopt : c.optimized = false) :
    (c.redo s)._modlist
      = QList.insertLoop c.index 0 c._newml
          (QList.removeLoop c.index c._oldml.length s._modlist) ∧
    (c.redo s)._modbuffer = s._modbuffer := by
  unfold InsertCommand.optimized at hopt
  unfold InsertCommand.redo notifyDataChanged
  rw [hopt]
  simp only [Bool.false_eq_true, if_false]
  split <;> exact ⟨rfl, rfl⟩

theorem insert_undo_loops (c : InsertCommand) (s : QHexEditData) :
    (c.undo s)._modlist
      = QList.insertLoop c.index 0 c._oldml
          (QList.removeLoop c.index c._newml.length s._modlist) ∧
    (c.undo s)._modbuffer = s._modbuffer := by
  unfold InsertCommand.undo notifyDataChanged
  split <;> exact ⟨rfl, rfl⟩

theorem remove_redo_loops (c : RemoveCommand) (s : QHexEditData) :
    (c.redo s)._modlist
      = QList.insertLoop c.index 0 c._newml
          (QList.erase s._modlist c.index (c.index + (c._oldml.length : Int))) ∧
    (c.redo s)._modbuffer = s._modbuffer := by
  unfold RemoveCommand.redo notifyDataChanged
  split <;> exact ⟨rfl, rfl⟩

theorem remove_undo_loops (c : RemoveCommand) (s : QHexEditData) :
    (c.undo s)._modlist
      = QList.insertLoop c.index 0 c._oldml
          (QList.erase s._modlist c.index (c.index + (c._newml.length : Int))) ∧
    (c.undo s)._modbuffer = s._modbuffer := by
  unfold RemoveCommand.undo notifyDataChanged
  split <;> exact ⟨rfl, rfl⟩

theorem chain_split_exists (chain : ModifyList) (i n : Nat) (h : i + n ≤ chain.length) :
    ∃ pre xs post, chain = pre ++ xs ++ post ∧ pre.length = i ∧ xs.length = n :=
  ⟨chain.take i, (chain.drop i).take n, chain.drop (i + n), chain_split chain i n h⟩

/-- Removing `n` pieces at `index` one by one and inserting `put` there piece
by piece replaces exactly those `n` pieces, whatever they are. -/
theorem loops_replace_slice (chain put : ModifyList) (index : Int) (i n : Nat)
    (hi : index = (i : Int)) (h : i + n ≤ chain.length) :
    replacesSlice chain
      (QList.insertLoop index 0 put (QList.removeLoop index n chain)) i n put := by
  obtain ⟨pre, xs, post, hc, hl1, hl2⟩ := chain_split_exists chain i n h
  subst hc hl1 hl2 hi
  rw [removeLoop_at]
  have e := insertLoop_at pre post put []
  simp only [List.length_nil, Int.ofNat_zero, Nat.cast_zero, List.append_nil] at e
  rw [e]
  exact replacesSlice_splice pre xs post put

/-- Erasing the `n` pieces at `[index, index + n)` and inserting `put` there
piece by piece replaces exactly those `n` pieces, whatever they are. -/
theorem erase_replace_slice (chain put : ModifyList) (index : Int) (i n : Nat)
    (hi : index = (i : Int)) (h : i + n ≤ chain.length) :
    replacesSlice chain
      (QList.insertLoop index 0 put (QList.erase chain index (index + (n : Int)))) i n put := by
  obtain ⟨pre, xs, post, hc, hl1, hl2⟩ := chain_split_exists chain i n h
  subst hc hl1 hl2 hi
  rw [erase_at]
  have e := insertLoop_at pre post put []
  simp only [List.length_nil, Int.ofNat_zero, Nat.cast_zero, List.append_nil] at e
  rw [e]
  exact replacesSlice_splice pre xs post put

/-- C13: undo and redo touch only the recorded slice. For a non-optimized
`InsertCommand` and for a `RemoveCommand` with index `i`, old slice `O` and
new slice `N`: on every chain with at least `i + |O|` pieces, redo leaves the
pieces at `[0, i)` unchanged, puts `N` at `[i, i + |N|)` and keeps the pieces
that were at the positions from `i + |O|` on right after `N`, so that the
number of pieces changes by `|N| - |O|`; on every chain with at least
`i + |N|` pieces, undo does the same with `O` and `N` exchanged; neither
changes the modification log. -/
theorem undo_redo_touch_only_slice (ic : InsertCommand) (rc : RemoveCommand)
    (s : QHexEditData) (i : Nat) (hopt : ic.optimized = false) :
    (ic.index = (i : Int) → i + ic._oldml.length ≤ s._modlist.length →
      replacesSlice s._modlist (ic.redo s)._modlist i ic._oldml.length ic._newml ∧
      (ic.redo s)._modbuffer = s._modbuffer) ∧
    (ic.index = (i : Int) → i + ic._newml.length ≤ s._modlist.length →
      replacesSlice s._modlist (ic.undo s)._modlist i ic._newml.length ic._oldml ∧
      (ic.undo s)._modbuffer = s._modbuffer) ∧
    (rc.index = (i : Int) → i + rc._oldml.length ≤ s._modlist.length →
      replacesSlice s._modlist (rc.redo s)._modlist i rc._oldml.length rc._newml ∧
      (rc.redo s)._modbuffer = s._modbuffer) ∧
    (rc.index = (i : Int) → i + rc._newml.length ≤ s._modlist.length →
      replacesSlice s._modlist (rc.undo s)._modlist i rc._newml.length rc._oldml ∧
      (rc.undo s)._modbuffer = s._modbuffer) := by
  refine ⟨?_, ?_, ?_, ?_⟩
  · intro hi h
    obtain ⟨e, hb⟩ := insert_redo_loops ic s hopt
    rw [e]
    exact ⟨loops_replace_slice s._modlist ic._newml ic.index i ic._oldml.length hi h, hb⟩
  · intro hi h
    obtain ⟨e, hb⟩ := insert_undo_loops ic s
    rw [e]
    exact ⟨loops_replace_slice s._modlist ic._oldml ic.index i ic._newml.length hi h, hb⟩
  · intro hi h
    obtain ⟨e, hb⟩ := remove_redo_loops rc s
    rw [e]
    exact ⟨erase_replace_slice s._modlist rc._newml rc.index i rc._oldml.length hi h, hb⟩
  · intro hi h
    obtain ⟨e, hb⟩ := remove_undo_loops rc s
    rw [e]
    exact ⟨erase_replace_slice s._modlist rc._oldml rc.index i rc._newml.length hi h, hb⟩

/-- Witness of C13 on `0123456789` after `insert(3, "XYZ")`, whose chain is
`[2, 1, 3]`: redo and undo of the insert command and of the command of
`remove(2, 3)` at index 0, and redo of the second remove at index 1 of the
chain `[4, 5, 3]`. -/
theorem undo_redo_touch_only_slice_witness :
    (doc13._modlist = [2, 1, 3] ∧ insertXYZcmd.optimized = false ∧
      insertXYZcmd.index = 0 ∧ remove23cmd.index = 0 ∧ removeAgainCmd.index = 1) ∧
    (replacesSlice doc13._modlist (insertXYZcmd.redo doc13)._modlist 0
        insertXYZcmd._oldml.length insertXYZcmd._newml ∧
      (insertXYZcmd.redo doc13)._modbuffer = doc13._modbuffer) ∧
    (replacesSlice doc13._modlist (insertXYZcmd.undo doc13)._modlist 0
        insertXYZcmd._newml.length insertXYZcmd._oldml ∧
      (insertXYZcmd.undo doc13)._modbuffer = doc13._modbuffer) ∧
    (replacesSlice doc13._modlist (remove23cmd.redo doc13)._modlist 0
        remove23cmd._oldml.length remove23cmd._newml ∧
      (remove23cmd.redo doc13)._modbuffer = doc13._modbuffer) ∧
    (replacesSlice doc13._modlist (remove23cmd.undo doc13)._modlist 0
        remove23cmd._newml.length remove23cmd._oldml ∧
      (remove23cmd.undo doc13)._modbuffer = doc13._modbuffer) ∧
    (replacesSlice doc10b._modlist (removeAgainCmd.redo doc10b)._modlist 1
        removeAgainCmd._oldml.length removeAgainCmd._newml ∧
      (removeAgainCmd.redo doc10b)._modbuffer = doc10b._modbuffer) ∧
    (insertXYZcmd.redo doc13)._modlist = [2, 1, 3, 1, 3] ∧
    (insertXYZcmd.undo doc13)._modlist = [0] ∧
    (remove23cmd.redo doc13)._modlist = [4, 5, 3] ∧
    (remove23cmd.undo doc13)._modlist = [2, 1, 3] ∧
    doc10b._modlist = [4, 5, 3] ∧
    (removeAgainCmd.redo doc10b)._modlist = [4, 3] :=
  ⟨by decide,
   (undo_redo_touch_only_slice insertXYZcmd remove23cmd doc13 0 (by decide)).1
     (by decide) (by decide),
   (undo_redo_touch_only_slice insertXYZcmd remove23cmd doc13 0 (by decide)).2.1
     (by decide) (by decide),
   (undo_redo_touch_only_slice insertXYZcmd remove23cmd doc13 0 (by decide)).2.2.1
     (by decide) (by decide),
   (undo_redo_touch_only_slice insertXYZcmd remove23cmd doc13 0 (by decide)).2.2.2
     (by decide) (by decide),
   (undo_redo_touch_only_slice insertXYZcmd removeAgainCmd doc10b 1 (by decide)).2.2.1
     (by decide) (by decide),
   by decide, by decide, by decide, by decide, by decide, by decide⟩

/-! ## The commands the modelled owner builds -/

theorem locate_index_le (heap : Heap) :
    ∀ (l : ModifyList) (pos : Int) (k : Nat), (locate heap l pos k).1 ≤ k + l.length
  | [], _, k => by simp [locate]
  | p :: ps, pos, k => by
    unfold locate
    split
    · simp
    · have h := locate_index_le heap ps (pos - (heap p).length) (k + 1)
      simp only [List.length_cons]
      omega

theorem cover_initial (heap : Heap) :
    ∀ (l : ModifyList) (need : Int), cover heap l need <+: l
  | [], _ => by simp [cover]
  | p :: ps, need => by
    unfold cover
    split
    · exact List.nil_prefix
    · exact (List.prefix_cons_inj p).2 (cover_initial heap ps _)

theorem holdsAt_of_initial (chain ml : ModifyList) (k : Nat) (hk : k ≤ chain.length)
    (hp : ml <+: chain.drop k) : holdsAt chain (k : Int) ml := by
  have hlen := hp.length_le
  rw [List.length_drop] at hlen
  refine ⟨Int.ofNat_nonneg _, ?_, ?_⟩
  · simp only [Int.toNat_ofNat]
    omega
  · simp only [Int.toNat_ofNat]
    exact (List.prefix_iff_eq_take.1 hp).symm

theorem specRemove_modlist (pos l : Int) (a : ActionType) (s : QHexEditData) :
    (specRemove pos l a s).2._modlist = s._modlist := by
  unfold specRemove
  split <;> rfl

theorem specRemove_holdsAt (pos l : Int) (a : ActionType) (s : QHexEditData)
    (rem : RemoveCommand) (h : (specRemove pos l a s).1 = some rem) :
    holdsAt s._modlist rem.index rem._oldml := by
  unfold specRemove at h
  split at h
  · exact absurd h (by simp)
  · simp only [Option.some.injEq] at h
    subst h
    exact holdsAt_of_initial _ _ _
      (by simpa using locate_index_le s.heap s._modlist pos 0) (cover_initial _ _ _)

theorem specInsert_modlist (pos : Int) (ba : List UInt8) (a : ActionType) (s : QHexEditData) :
    (specInsert pos ba a s).2._modlist = s._modlist := by
  unfold specInsert
  split
  · rfl
  · simp only
    split <;> rfl

theorem specInsert_holdsAt (pos : Int) (ba : List UInt8) (a : ActionType) (s : QHexEditData)
    (ins : InsertCommand) (h : (specInsert pos ba a s).1 = some ins) :
    holdsAt s._modlist ins.index ins._oldml ∧ ins.optimized = false := by
  have hk : (locate s.heap s._modlist pos 0).1 ≤ s._modlist.length := by
    simpa using locate_index_le s.heap s._modlist pos 0
  unfold specInsert at h
  split at h
  · exact absurd h (by simp)
  · simp only at h
    split at h
    · simp only [Option.some.injEq] at h
      subst h
      exact ⟨holdsAt_of_initial _ [] _ hk List.nil_prefix, rfl⟩
    · rename_i p hp
      simp only [Option.some.injEq] at h
      subst h
      refine ⟨holdsAt_of_initial _ [p] _ hk ?_, rfl⟩
      have hp' : s._modlist[(locate s.heap s._modlist pos 0).1]? = some p := by
        split at hp
        · exact absurd hp (by simp)
        · exact hp
      obtain ⟨hlt, hget⟩ := List.getElem?_eq_some_iff.1 hp'
      rw [List.drop_eq_getElem_cons hlt, hget]
      exact (List.prefix_cons_inj p).2 List.nil_prefix

theorem insert_redo_modlist_congr (c : InsertCommand) (s t : QHexEditData)
    (hopt : c.optimized = false) (h : s._modlist = t._modlist) :
    (c.redo s)._modlist = (c.redo t)._modlist := by
  rw [(insert_redo_loops c s hopt).1, (insert_redo_loops c t hopt).1, h]

theorem firstRedo_both (f : Internals) (c : ReplaceCommand) (s : QHexEditData)
    (rem : RemoveCommand) (ins : InsertCommand)
    (hrem : (ReplaceCommand.firstRedo f c s).1._remcmd = some rem)
    (hins : (ReplaceCommand.firstRedo f c s).1._inscmd = some ins) :
    ∃ rem0 ins0,
      (f.internalRemove c.pos (c.removeLength s) ActionType.Replace s).1 = some rem0 ∧
      rem = rem0.setNotify false ∧
      (f.internalInsert c.pos c._data ActionType.Replace
        (rem.redo (f.internalRemove c.pos (c.removeLength s) ActionType.Replace s).2)).1
        = some ins0 ∧
      ins = ins0.setNotify false ∧
      (ReplaceCommand.firstRedo f c s).2
        = ins.redo (f.internalInsert c.pos c._data ActionType.Replace
            (rem.redo (f.internalRemove c.pos (c.removeLength s) ActionType.Replace s).2)).2 := by
  unfold ReplaceCommand.firstRedo at hrem hins ⊢
  simp only at hrem hins ⊢
  cases hr : (f.internalRemove c.pos (c.removeLength s) ActionType.Replace s).1 with
  | none => rw [hr] at hrem; exact absurd hrem (by simp)
  | some rem0 =>
    rw [hr] at hrem hins
    simp only [Option.map_some', Option.some.injEq] at hrem hins ⊢
    subst hrem
    cases hi : (f.internalInsert c.pos c._data ActionType.Replace
        ((rem0.setNotify false).redo
          (f.internalRemove c.pos (c.removeLength s) ActionType.Replace s).2)).1 with
    | none => rw [hi] at hins; exact absurd hins (by simp)
    | some ins0 =>
      rw [hi] at hins
      simp only [Option.map_some', Option.some.injEq] at hins ⊢
      subst hins
      exact ⟨rem0, ins0, rfl, rfl, rfl, rfl, rfl⟩

/-! ## Undo and redo of an executed replace -/

/-- C2: for every `ReplaceCommand` that has been executed (every position,
length, replacement bytes and document, with the owner as the spec describes
it) and holds both its `Remove` and its `Insert` sub-command, undo is defined
and restores the piece chain exactly as it was before the replace, undoing the
insertion first and then the removal; a following redo leaves the command as
it is and restores exactly the post-replace chain, redoing the removal first
and then the insertion. -/
theorem replace_undo_redo_executed (pos len : Int) (ba : List UInt8) (s0 : QHexEditData)
    (rem : RemoveCommand) (ins : InsertCommand)
    (hrem : (specReplace pos len ba s0).1._remcmd = some rem)
    (hins : (specReplace pos len ba s0).1._inscmd = some ins) :
    ∃ s3, (specReplace pos len ba s0).1.undo (specReplace pos len ba s0).2 = some s3 ∧
      s3._modlist = (rem.undo (ins.undo (specReplace pos len ba s0).2))._modlist ∧
      s3._modlist = s0._modlist ∧
      ((specReplace pos len ba s0).1.redo specInternals s3).1 = (specReplace pos len ba s0).1 ∧
      ((specReplace pos len ba s0).1.redo specInternals s3).2._modlist
        = (ins.redo (rem.redo s3))._modlist ∧
      ((specReplace pos len ba s0).1.redo specInternals s3).2._modlist
        = (specReplace pos len ba s0).2._modlist := by
  have e2 : (specReplace pos len ba s0).2._modlist
      = (ReplaceCommand.firstRedo specInternals (ReplaceCommand.new pos len ba) s0).2._modlist :=
    rfl
  obtain ⟨rem0, ins0, hr0, hrem0, hi0, hins0, hs⟩ :=
    firstRedo_both specInternals (ReplaceCommand.new pos len ba) s0 rem ins hrem hins
  have hr0' : (specRemove pos (min len s0.length) ActionType.Replace s0).1 = some rem0 := hr0
  have hi0' : (specInsert pos ba ActionType.Replace
      (rem.redo (specRemove pos (min len s0.length) ActionType.Replace s0).2)).1 = some ins0 :=
    hi0
  have hs' : (ReplaceCommand.firstRedo specInternals (ReplaceCommand.new pos len ba) s0).2
      = ins.redo (specInsert pos ba ActionType.Replace
          (rem.redo (specRemove pos (min len s0.length) ActionType.Replace s0).2)).2 := hs
  have hchain0 := specRemove_modlist pos (min len s0.length) ActionType.Replace s0
  have h1 : holdsAt (specRemove pos (min len s0.length) ActionType.Replace s0).2._modlist
      rem.index rem._oldml := by
    rw [hchain0, hrem0]
    exact specRemove_holdsAt pos (min len s0.length) ActionType.Replace s0 rem0 hr0'
  obtain ⟨h2', hopt'⟩ := specInsert_holdsAt pos ba ActionType.Replace _ ins0 hi0'
  have h2 : holdsAt (rem.redo (specRemove pos (min len s0.length) ActionType.Replace s0).2)._modlist
      ins.index ins._oldml := by
    rw [hins0]; exact h2'
  have hopt : ins.optimized = false := by
    rw [hins0]; exact hopt'
  have hs2 : (specReplace pos len ba s0).2._modlist
      = (ins.redo (rem.redo (specRemove pos (min len s0.length) ActionType.Replace s0).2))._modlist := by
    rw [e2, hs']
    exact insert_redo_modlist_congr ins _ _ hopt (specInsert_modlist pos ba ActionType.Replace _)
  obtain ⟨s3, hu, hu1, hu2, hd1, hd2, hd3⟩ :=
    replace_undo_redo_chain specInternals (specReplace pos len ba s0).1 rem ins
      (specRemove pos (min len s0.length) ActionType.Replace s0).2 (specReplace pos len ba s0).2
      hrem hins hopt h1 h2 hs2
  exact ⟨s3, hu, hu1, hu2.trans hchain0, hd1, hd2, hd3⟩

/-- Witness of C2, the scenario of the spec: on the 10-byte source
`0123456789`, `replace(0, 2, "AB")` holds both sub-commands and gives
`AB23456789`, undo restores the chain and gives `0123456789`, and redo
restores the chain and gives `AB23456789`. -/
theorem replace_undo_redo_executed_witness :
    ((specReplace 0 2 (bytes "AB") doc10).1._remcmd = some replaceABrem ∧
      (specReplace 0 2 (bytes "AB") doc10).1._inscmd = some replaceABins) ∧
    (∃ s3, (specReplace 0 2 (bytes "AB") doc10).1.undo (specReplace 0 2 (bytes "AB") doc10).2
        = some s3 ∧
      s3._modlist
        = (replaceABrem.undo (replaceABins.undo (specReplace 0 2 (bytes "AB") doc10).2))._modlist ∧
      s3._modlist = doc10._modlist ∧
      ((specReplace 0 2 (bytes "AB") doc10).1.redo specInternals s3).1
        = (specReplace 0 2 (bytes "AB") doc10).1 ∧
      ((specReplace 0 2 (bytes "AB") doc10).1.redo specInternals s3).2._modlist
        = (replaceABins.redo (replaceABrem.redo s3))._modlist ∧
      ((specReplace 0 2 (bytes "AB") doc10).1.redo specInternals s3).2._modlist
        = (specReplace 0 2 (bytes "AB") doc10).2._modlist) ∧
    content doc10 = bytes "0123456789" ∧
    content (specReplace 0 2 (bytes "AB") doc10).2 = bytes "AB23456789" ∧
    ((specReplace 0 2 (bytes "AB") doc10).1.undo (specReplace 0 2 (bytes "AB") doc10).2).map
      content = some (bytes "0123456789") ∧
    ((specReplace 0 2 (bytes "AB") doc10).1.undo (specReplace 0 2 (bytes "AB") doc10).2).map
      (fun s3 => content ((specReplace 0 2 (bytes "AB") doc10).1.redo specInternals s3).2)
      = some (bytes "AB23456789") :=
  ⟨⟨by decide, by decide⟩,
   replace_undo_redo_executed 0 2 (bytes "AB") doc10 replaceABrem replaceABins
     (by decide) (by decide),
   by decide, by decide, by decide, by decide⟩

/-! ## Notifications of a replace that misses a sub-command -/

/-- C7: undo of an executed replace can emit no notification. The first
execution of every replace emits exactly the one notification `(pos, number
of replacement bytes, Replace)` and leaves a command with notification enabled
and silenced sub-commands. For the write at the end of the document
`replace(10, 2, "AB")` on `0123456789` that command holds no `Remove`
sub-command, and its undo, which calls both sub-commands before it notifies,
ends in the call through the null `_remcmd`: no notification is emitted. -/
theorem replace_undo_emits_nothing :
    (∀ (pos len : Int) (ba : List UInt8) (s : QHexEditData),
      (specReplace pos len ba s).2.dataChanged
        = s.dataChanged ++ [⟨pos, ba.length, ActionType.Replace⟩] ∧
      (specReplace pos len ba s).1.canNotify = true ∧
      (specReplace pos len ba s).1.subSilent = true) ∧
    (replacedAtEnd.1 = (specReplace 10 2 (bytes "AB") doc10).1 ∧
      replacedAtEnd.1.canNotify = true ∧
      replacedAtEnd.1.subSilent = true ∧
      replacedAtEnd.2.dataChanged = [⟨10, 2, ActionType.Replace⟩] ∧
      replacedAtEnd.1._remcmd = none ∧
      (replacedAtEnd.1.undo replacedAtEnd.2).map (fun s => s.dataChanged) = none) := by
  refine ⟨?_, ?_⟩
  · intro pos len ba s
    refine ⟨?_, rfl, ?_⟩
    · exact replace_redo_dataChanged specInternals specRemove_dataChanged
        specInsert_dataChanged (ReplaceCommand.new pos len ba) s rfl rfl
    · exact firstRedo_subSilent specInternals (ReplaceCommand.new pos len ba) s
  · decide

end QHexEditData
